import Mathlib

/-!
# Flexible Sync Subscription Store — shallow embedding

A shallow embedding of `src/realm/sync/subscriptions.cpp` (the flexible-sync
subscription store of realm-core).  Persistent tables become lists of rows,
write transactions become explicit table values threaded through the
operations, and the promise/future notification machinery becomes a pure
function from the pending-request list to resolutions.  Host-database
facilities that are out of scope for the spec (query compilation, object-id
generation, wall clocks) enter as explicit parameters.
-/

namespace RealmSync

/-- Modelled from the spec: the `SubscriptionSet::State` enum is declared in
`realm/sync/subscriptions.hpp`, which is not part of the provided sources.
Spec section 6 fixes the integer codes that the enum must carry on disk:
`Uncommitted=0, Error=1, Pending=2, Bootstrapping=3, Complete=4,
Superseded=5`. -/
inductive State where
  | Uncommitted
  | Error
  | Pending
  | Bootstrapping
  | Complete
  | Superseded
deriving DecidableEq

/-- Modelled from the spec: the on-disk / underlying integer code of each
state (spec section 6; the C++ enum comparison operators compare exactly
these underlying values). -/
def State.code : State → Int
  | .Uncommitted => 0
  | .Error => 1
  | .Pending => 2
  | .Bootstrapping => 3
  | .Complete => 4
  | .Superseded => 5

/-- The C++ comparison `a >= b` on two `State` values: comparison of the
underlying integer codes. -/
def stateGE (a b : State) : Bool := decide (State.code b ≤ State.code a)

/-- `Subscription`: value object for one query registration.  `ObjectId`
and `Timestamp` are opaque to the store; they are embedded as `Nat` and
`Int` respectively. -/
structure Subscription where
  m_id : Nat
  m_created_at : Int
  m_updated_at : Int
  m_name : Option String
  m_object_class_name : String
  m_query_string : String
deriving DecidableEq

/-- `Subscription::name()`: returns the empty string view when the optional
name is absent. -/
def Subscription.name (s : Subscription) : String := s.m_name.getD ""

/-- `Subscription::has_name()`. -/
def Subscription.has_name (s : Subscription) : Bool := s.m_name.isSome

/-- The generating constructor `Subscription(name, object_class_name,
query_str)`: the fresh `ObjectId::gen()` value and the wall-clock `now` are
explicit parameters. -/
def Subscription.make (gen_id : Nat) (now : Int) (name : Option String)
    (object_class_name query_str : String) : Subscription :=
  { m_id := gen_id
    m_created_at := now
    m_updated_at := now
    m_name := name
    m_object_class_name := object_class_name
    m_query_string := query_str }

/-- One row of the embedded `flx_subscriptions` table.  `name = none`
embeds a NULL string column. -/
structure PersistedSub where
  id : Nat
  created_at : Int
  updated_at : Int
  name : Option String
  object_class : String
  query : String
deriving DecidableEq

/-- One row of the `flx_subscription_sets` table (primary key `version`). -/
structure Row where
  version : Int
  state : State
  snapshot_version : Int
  error : String
  subs : List PersistedSub
deriving DecidableEq

/-- The field writes performed for one subscription inside
`MutableSubscriptionSet::commit` (the `name` column is set only when
`sub.m_name` is engaged, so it stays NULL exactly when the name is absent). -/
def write_sub (s : Subscription) : PersistedSub :=
  { id := s.m_id
    created_at := s.m_created_at
    updated_at := s.m_updated_at
    name := s.m_name
    object_class := s.m_object_class_name
    query := s.m_query_string }

/-- The field reads performed by `Subscription::Subscription(parent, obj)`. -/
def load_sub (p : PersistedSub) : Subscription :=
  { m_id := p.id
    m_created_at := p.created_at
    m_updated_at := p.updated_at
    m_name := p.name
    m_object_class_name := p.object_class
    m_query_string := p.query }

/-- `SubscriptionSet`: the frozen view of one version. -/
structure SubscriptionSet where
  m_version : Int
  m_state : State
  m_error_str : String
  m_snapshot_version : Int
  m_subs : List Subscription
deriving DecidableEq

/-- `SubscriptionSet::load_from_database`. -/
def load_from_database (obj : Row) : SubscriptionSet :=
  { m_version := obj.version
    m_state := obj.state
    m_error_str := obj.error
    m_snapshot_version := obj.snapshot_version
    m_subs := obj.subs.map load_sub }

/-- The synthetic `Superseded` placeholder constructor
`SubscriptionSet(mgr, version, SupersededTag)`. -/
def superseded_set (version : Int) : SubscriptionSet :=
  { m_version := version
    m_state := .Superseded
    m_error_str := ""
    m_snapshot_version := 0
    m_subs := [] }

/-- `Table::maximum_int` over a column: maximum of a list of integers
(realm returns 0 for an empty table). -/
def maximum_int : List Int → Int
  | [] => 0
  | x :: xs => xs.foldl max x

/-- `Table::get_object_with_primary_key` / primary-key lookup on the
`flx_subscription_sets` table. -/
def find_row (table : List Row) (version_id : Int) : Option Row :=
  table.find? fun r => decide (r.version = version_id)

/-- Errors surfaced by the store (spec section 7 calls the missing-row case
`VersionNotFound`; the code throws the host database's `KeyNotFound`). -/
inductive StoreErr where
  | KeyNotFound
deriving DecidableEq

/-- `SubscriptionStore::get_by_version_impl`: exact primary-key lookup; on
`KeyNotFound`, a synthetic `Superseded` set if the version is below
`m_min_outstanding_version`, otherwise the error is rethrown. -/
def get_by_version_impl (table : List Row) (m_min_outstanding_version : Int)
    (version_id : Int) : Except StoreErr SubscriptionSet :=
  match find_row table version_id with
  | some obj => .ok (load_from_database obj)
  | none =>
    if version_id < m_min_outstanding_version then
      .ok (superseded_set version_id)
    else
      .error .KeyNotFound

/-- `SubscriptionStore::get_active_and_latest_versions`: `(0, 0)` on an
empty table; otherwise the latest version together with the
highest-version `Complete` row, or `-1` when no row is `Complete`. -/
def get_active_and_latest_versions (table : List Row) : Int × Int :=
  if table.isEmpty then (0, 0)
  else
    let latest_id := maximum_int (table.map (·.version))
    let res := table.filter fun r => decide (r.state = State.Complete)
    if res.isEmpty then (-1, latest_id)
    else (maximum_int (res.map (·.version)), latest_id)

/-- `SubscriptionStore::supercede_prior_to`: remove every row whose primary
key is less than `version_id` (executed on the live write transaction). -/
def supercede_prior_to (table : List Row) (version_id : Int) : List Row :=
  table.filter fun r => !(decide (r.version < version_id))

/-- `MutableSubscriptionSet`: a writable view over a live write
transaction.  `table` is the write transaction's view of the
`flx_subscription_sets` table and `writing` is whether the transaction is
still in the `transact_Writing` stage. -/
structure MutableSubscriptionSet where
  m_version : Int
  m_old_state : State
  m_state : State
  m_error_str : String
  m_subs : List Subscription
  table : List Row
  writing : Bool
deriving DecidableEq

/-- `SubscriptionStore::get_mutable_by_version`: start a write transaction
and load the row with the given primary key. -/
def get_mutable_by_version (table : List Row) (version_id : Int) :
    Option MutableSubscriptionSet :=
  (find_row table version_id).map fun obj =>
    { m_version := obj.version
      m_old_state := obj.state
      m_state := obj.state
      m_error_str := obj.error
      m_subs := obj.subs.map load_sub
      table := table
      writing := true }

/-- `SubscriptionStore::make_mutable_copy`: allocate primary key
`maximum_int + 1`, create the row (all columns at their defaults, so the
state column holds 0 = `Uncommitted`), and `insert_sub` each subscription
of `set` in order. -/
def make_mutable_copy (table : List Row) (set : SubscriptionSet) :
    MutableSubscriptionSet :=
  let new_pk := maximum_int (table.map (·.version)) + 1
  { m_version := new_pk
    m_old_state := .Uncommitted
    m_state := .Uncommitted
    m_error_str := ""
    m_subs := set.m_subs
    table := table ++ [{ version := new_pk, state := .Uncommitted,
                         snapshot_version := 0, error := "", subs := [] }]
    writing := true }

/-- `MutableSubscriptionSet::update_state`: the transition checks and the
staged in-memory mutation, including the immediate `supercede_prior_to`
deletion performed on the write transaction for the `Complete` target. -/
def MutableSubscriptionSet.update_state (self : MutableSubscriptionSet)
    (new_state : State) (error_str : Option String) :
    Except String MutableSubscriptionSet :=
  if ¬ self.writing then .error "wrong_transact_state"
  else
    match new_state with
    | .Uncommitted => .error "cannot set subscription set state to uncommitted"
    | .Error =>
      if self.m_state ≠ .Bootstrapping ∧ self.m_state ≠ .Pending ∧
          self.m_state ≠ .Uncommitted then
        .error "subscription set must be in Bootstrapping or Pending to update state to error"
      else
        match error_str with
        | none => .error "Must supply an error message when setting a subscription to the error state"
        | some msg => .ok { self with m_state := .Error, m_error_str := msg }
    | .Bootstrapping =>
      if error_str.isSome then
        .error "Cannot supply an error message for a subscription set when state is not Error"
      else .ok { self with m_state := .Bootstrapping }
    | .Complete =>
      if error_str.isSome then
        .error "Cannot supply an error message for a subscription set when state is not Error"
      else
        .ok { self with m_state := .Complete,
                        table := supercede_prior_to self.table self.m_version }
    | .Superseded => .error "Cannot set a subscription to the superseded state"
    | .Pending => .error "Cannot set subscription set to the pending state"

/-- `MutableSubscriptionSet::insert_or_assign_impl`: overwrite the found
subscription's object class, query string and `updated_at`, or append a
freshly constructed one.  Returns the index and the `inserted` flag. -/
def MutableSubscriptionSet.insert_or_assign_impl (self : MutableSubscriptionSet)
    (it : Option Nat) (gen_id : Nat) (now : Int) (name : Option String)
    (object_class_name query_str : String) :
    Except String (MutableSubscriptionSet × Nat × Bool) :=
  if ¬ self.writing then .error "wrong_transact_state"
  else
    match it with
    | some i =>
      .ok ({ self with
               m_subs := self.m_subs.modify
                 (fun sub => { sub with m_object_class_name := object_class_name,
                                        m_query_string := query_str,
                                        m_updated_at := now }) i },
           i, false)
    | none =>
      .ok ({ self with
               m_subs := self.m_subs ++
                 [Subscription.make gen_id now name object_class_name query_str] },
           self.m_subs.length, true)

/-- The named overload `insert_or_assign(name, query)`: matches an existing
subscription with `has_name() && name() == name`.  The compiled class name
and query description are explicit parameters. -/
def MutableSubscriptionSet.insert_or_assign_named (self : MutableSubscriptionSet)
    (gen_id : Nat) (now : Int) (name : String) (table_name query_str : String) :
    Except String (MutableSubscriptionSet × Nat × Bool) :=
  let it := self.m_subs.findIdx? fun sub =>
    sub.has_name && decide (sub.name = name)
  self.insert_or_assign_impl it gen_id now (some name) table_name query_str

/-- The anonymous overload `insert_or_assign(query)`: matches an existing
subscription with `name().empty()` and equal class name and query string. -/
def MutableSubscriptionSet.insert_or_assign_anon (self : MutableSubscriptionSet)
    (gen_id : Nat) (now : Int) (table_name query_str : String) :
    Except String (MutableSubscriptionSet × Nat × Bool) :=
  let it := self.m_subs.findIdx? fun sub =>
    decide (sub.name = "") && decide (sub.m_object_class_name = table_name) &&
      decide (sub.m_query_string = query_str)
  self.insert_or_assign_impl it gen_id now none table_name query_str

/-- A sequence of `update_state` calls on one mutable handle; a call that
throws leaves the handle unchanged (every throw in the source happens
before any mutation). -/
def run_updates (self : MutableSubscriptionSet)
    (ops : List (State × Option String)) : MutableSubscriptionSet :=
  ops.foldl
    (fun s op =>
      match s.update_state op.1 op.2 with
      | .ok s' => s'
      | .error _ => s)
    self

/-- One entry of `m_pending_notifications`. -/
structure NotificationRequest where
  version : Int
  notify_when : State
deriving DecidableEq

/-- How a pending promise is settled. -/
inductive Resolution where
  | value (s : State)
  | failure (msg : String)
deriving DecidableEq

/-- `MutableSubscriptionSet::process_notifications` as a pure function:
from the committed state, version and error string and the registry state,
produce the remaining pending list, the resolutions performed outside the
lock, and the new `m_min_outstanding_version`. -/
def process_notifications (new_state : State) (my_version : Int)
    (err_str : String) (m_pending_notifications : List NotificationRequest)
    (m_min_outstanding_version : Int) :
    List NotificationRequest × List (NotificationRequest × Resolution) × Int :=
  let matches_req := fun (it : NotificationRequest) =>
    decide ((it.version = my_version ∧
              (new_state = State.Error ∨ stateGE new_state it.notify_when = true)) ∨
            (new_state = State.Complete ∧ it.version < my_version))
  let to_finish := m_pending_notifications.filter matches_req
  let remaining := m_pending_notifications.filter fun it => !(matches_req it)
  let min' := if new_state = State.Complete then my_version
              else m_min_outstanding_version
  let resolutions := to_finish.map fun req =>
    if new_state = State.Error ∧ req.version = my_version then
      (req, Resolution.failure err_str)
    else if req.version < my_version then (req, Resolution.value .Superseded)
    else (req, Resolution.value new_state)
  (remaining, resolutions, min')

/-- The outcome of `SubscriptionSet::get_state_change_notification`. -/
inductive NotifyResult where
  | ready_superseded
  | ready_failure (msg : String)
  | ready_state (s : State)
  | enqueued (req : NotificationRequest)
deriving DecidableEq

/-- `SubscriptionSet::get_state_change_notification` as a decision
function: `cur_state` and `err_str` are the observed (possibly re-read)
state and error string of the set. -/
def get_state_change_notification (m_min_outstanding_version : Int)
    (version : Int) (cur_state : State) (err_str : String)
    (notify_when : State) : NotifyResult :=
  if m_min_outstanding_version > version then .ready_superseded
  else if cur_state = State.Error then .ready_failure err_str
  else if stateGE cur_state notify_when then .ready_state cur_state
  else .enqueued { version := version, notify_when := notify_when }

/-- The externally observable ordering of the tail of
`MutableSubscriptionSet::commit`. -/
inductive CommitEvent where
  | commit_write_transaction
  | notifications_processed
  | on_new_pending (version : Int)
deriving DecidableEq

/-- Everything `MutableSubscriptionSet::commit` produces: the committed
table, the post-commit staged state, the frozen view it returns, the event
order, and the notification-registry effects. -/
structure CommitResult where
  table : List Row
  m_state : State
  frozen : Except StoreErr SubscriptionSet
  events : List CommitEvent
  resolutions : List (NotificationRequest × Resolution)
  pending_after : List NotificationRequest
  min_outstanding_after : Int

/-- The staged state as `commit` persists it: a still-`Uncommitted` state
of a new version is promoted to `Pending`, everything else is written as
staged. -/
def commit_state (self : MutableSubscriptionSet) : State :=
  if self.m_old_state = State.Uncommitted ∧ self.m_state = State.Uncommitted
  then State.Pending else self.m_state

/-- The column writes `commit` performs on this set's row: for a new
version, `snapshot_version` and the rewritten embedded subscription list;
always the staged state; the error column only when the staged error
string is non-empty. -/
def commit_update_row (self : MutableSubscriptionSet) (tr_version : Int)
    (r : Row) : Row :=
  let r1 := if self.m_old_state = State.Uncommitted then
              { r with snapshot_version := tr_version,
                       subs := self.m_subs.map write_sub }
            else r
  let r2 := { r1 with state := commit_state self }
  if self.m_error_str ≠ "" then { r2 with error := self.m_error_str } else r2

/-- The `flx_subscription_sets` table as `commit` leaves it. -/
def commit_table (self : MutableSubscriptionSet) (tr_version : Int) :
    List Row :=
  self.table.map fun r =>
    if r.version = self.m_version then commit_update_row self tr_version r else r

/-- `MutableSubscriptionSet::commit`: requires the writing stage; writes
this set's row (see `commit_update_row`), commits the transaction, runs
`process_notifications`, fires `on_new_pending` when the post-commit state
is `Pending`, and returns the frozen view of this version. -/
def MutableSubscriptionSet.commit (self : MutableSubscriptionSet)
    (tr_version : Int) (m_pending_notifications : List NotificationRequest)
    (m_min_outstanding_version : Int) : Except String CommitResult :=
  if ¬ self.writing then .error "SubscriptionSet is not in a commitable state"
  else
    let pn := process_notifications (commit_state self) self.m_version
      self.m_error_str m_pending_notifications m_min_outstanding_version
    .ok { table := commit_table self tr_version
          m_state := commit_state self
          frozen := get_by_version_impl (commit_table self tr_version) pn.2.2
            self.m_version
          events := [CommitEvent.commit_write_transaction,
                     CommitEvent.notifications_processed] ++
            (if commit_state self = State.Pending then
               [CommitEvent.on_new_pending self.m_version]
             else [])
          resolutions := pn.2.1
          pending_after := pn.1
          min_outstanding_after := pn.2.2 }

/-- Strict lexicographic comparison of character lists: the shallow
embedding of `std::less<std::string>` used by `util::FlatMap`,
`std::stable_sort` on `std::string`, and `std::map` inside the JSON
library. -/
def lexLt : List Char → List Char → Bool
  | [], [] => false
  | [], _ :: _ => true
  | _ :: _, [] => false
  | a :: as, b :: bs => if a < b then true else if a = b then lexLt as bs else false

/-- `a < b` on strings. -/
def strLt (a b : String) : Bool := lexLt a.data b.data

/-- `a <= b` on strings, as used by a comparison sort. -/
def strLe (a b : String) : Bool := !(strLt b a)

/-- JSON string escaping of one character, as `nlohmann::json::dump`
performs it. -/
def escape_char (c : Char) : String :=
  if c = '\"' then "\\\""
  else if c = '\\' then "\\\\"
  else if c = Char.ofNat 8 then "\\b"
  else if c = Char.ofNat 12 then "\\f"
  else if c = '\n' then "\\n"
  else if c = '\r' then "\\r"
  else if c = '\t' then "\\t"
  else if c.toNat < 32 then
    let hex_digit := fun (n : Nat) =>
      if n < 10 then Char.ofNat (48 + n) else Char.ofNat (87 + n)
    String.mk ['\\', 'u', '0', '0', hex_digit (c.toNat / 16), hex_digit (c.toNat % 16)]
  else String.mk [c]

/-- A JSON string literal: quotes around the escaped contents. -/
def escape_json (s : String) : String :=
  "\"" ++ String.join (s.data.map escape_char) ++ "\""

/-- The effect on the accumulated `util::FlatMap` of one loop iteration of
`to_ext_json`: `table_to_query.at(table_name)` inserts the key at its
sorted position when absent, and the query string is appended unless
already present. -/
def add_query (m : List (String × List String)) (cls q : String) :
    List (String × List String) :=
  match m with
  | [] => [(cls, [q])]
  | (k, v) :: rest =>
    if strLt cls k then (cls, [q]) :: (k, v) :: rest
    else if cls = k then (k, if q ∈ v then v else v ++ [q]) :: rest
    else (k, v) :: add_query rest cls q

/-- The fully accumulated `table_to_query` map of `to_ext_json`. -/
def build_map (subs : List Subscription) : List (String × List String) :=
  subs.foldl (fun m sub => add_query m sub.m_object_class_name sub.m_query_string) []

/-- The OR-join of the (already sorted) query strings of one class. -/
def render_queries (qs : List String) : String :=
  String.intercalate " OR " (qs.map fun q => "(" ++ q ++ ")")

/-- `SubscriptionSet::to_ext_json` on the subscription list: build the
per-class query map, stable-sort each class's queries, and emit the JSON
object (`nlohmann::json` stores keys in `std::map` order, which coincides
with the `FlatMap` order already established). -/
def strLeRel (a b : String) : Prop := strLe a b = true

instance : DecidableRel strLeRel :=
  fun a b => instDecidableEqBool (strLe a b) true

def ext_json_of (subs : List Subscription) : String :=
  if subs.isEmpty then "\x7b\x7d"
  else if (build_map subs).isEmpty then "\x7b\x7d"
  else
    "\x7b" ++
      String.intercalate ","
        (((build_map subs).map fun kv =>
            (kv.1, render_queries (List.insertionSort strLeRel kv.2))).map fun kv =>
          escape_json kv.1 ++ ":" ++ escape_json kv.2) ++
      "\x7d"


/-- `SubscriptionSet::to_ext_json`. -/
def SubscriptionSet.to_ext_json (self : SubscriptionSet) : String :=
  ext_json_of self.m_subs

/-- The `(object_class_name, query_string)` projection of a subscription. -/
def sub_pair (s : Subscription) : String × String :=
  (s.m_object_class_name, s.m_query_string)

/-- One committed write transaction against the `flx_subscription_sets`
table: either a brand-new version built by `make_mutable_copy` or an
existing version reopened by `get_mutable_by_version`, in both cases
followed by an arbitrary sequence of `update_state` calls and a successful
`commit`. -/
inductive StoreStep : List Row → List Row → Prop
  | commit_new (table : List Row) (set : SubscriptionSet)
      (ops : List (State × Option String)) (tr_version : Int)
      (pend : List NotificationRequest) (minv : Int) (res : CommitResult)
      (h : (run_updates (make_mutable_copy table set) ops).commit
             tr_version pend minv = .ok res) :
      StoreStep table res.table
  | commit_existing (table : List Row) (version_id : Int)
      (self : MutableSubscriptionSet) (ops : List (State × Option String))
      (tr_version : Int) (pend : List NotificationRequest) (minv : Int)
      (res : CommitResult)
      (h0 : get_mutable_by_version table version_id = some self)
      (h : (run_updates self ops).commit tr_version pend minv = .ok res) :
      StoreStep table res.table

/-- The table seeded on first open: version 0, state `Pending`, no
subscriptions. -/
def initial_table (snapshot : Int) : List Row :=
  [{ version := 0, state := .Pending, snapshot_version := snapshot,
     error := "", subs := [] }]

/-- A table reachable from a seeded store through committed write
transactions. -/
def ReachableTable (table : List Row) : Prop :=
  ∃ snapshot, Relation.ReflTransGen StoreStep (initial_table snapshot) table

/-- The inductive invariant behind "at most one `Complete` row": versions
are distinct, and every `Complete` row's version is a lower bound of all
row versions (completing `v` deletes everything below `v`). -/
def StoreInv (table : List Row) : Prop :=
  (table.map (·.version)).Nodup ∧
  ∀ r ∈ table, r.state = State.Complete → ∀ r' ∈ table, r.version ≤ r'.version

/-! ## Helper lemmas -/

/-- The session invariant carried through one write transaction: distinct
versions, every `Complete` row minimal, and if the staged state is
`Complete` then every surviving row is at or above this set's version. -/
def SessionInv (self : MutableSubscriptionSet) : Prop :=
  (self.table.map (·.version)).Nodup ∧
  (∀ r ∈ self.table, r.state = State.Complete →
    ∀ r' ∈ self.table, r.version ≤ r'.version) ∧
  (self.m_state = State.Complete →
    ∀ r' ∈ self.table, self.m_version ≤ r'.version)

/-- Lookup of one class's accumulated query list in the `FlatMap`
accumulator. -/
def queries_at : List (String × List String) → String → List String
  | [], _ => []
  | (k, v) :: rest, key => if k = key then v else queries_at rest key

def is_ok {ε α : Type} (e : Except ε α) : Bool :=
  match e with
  | .ok _ => true
  | .error _ => false

def c1_example : MutableSubscriptionSet :=
  { m_version := 1, m_old_state := State.Complete, m_state := State.Complete,
    m_error_str := "", m_subs := [],
    table := [{ version := 1, state := State.Complete, snapshot_version := 0,
                error := "", subs := [] }],
    writing := true }

def c2_example : MutableSubscriptionSet :=
  { m_version := 1
    m_old_state := State.Uncommitted
    m_state := State.Uncommitted
    m_error_str := ""
    m_subs := []
    table := [{ version := 0, state := State.Pending, snapshot_version := 0,
                error := "", subs := [] },
              { version := 1, state := State.Uncommitted, snapshot_version := 0,
                error := "", subs := [] }]
    writing := true }

def c2_result : CommitResult :=
  { table := [{ version := 0, state := State.Pending, snapshot_version := 0,
                error := "", subs := [] },
              { version := 1, state := State.Pending, snapshot_version := 7,
                error := "", subs := [] }]
    m_state := State.Pending
    frozen := .ok { m_version := 1, m_state := State.Pending,
                    m_error_str := "", m_snapshot_version := 7, m_subs := [] }
    events := [CommitEvent.commit_write_transaction,
               CommitEvent.notifications_processed,
               CommitEvent.on_new_pending 1]
    resolutions := []
    pending_after := []
    min_outstanding_after := 0 }

def c4_example : MutableSubscriptionSet :=
  { m_version := 2
    m_old_state := State.Pending
    m_state := State.Pending
    m_error_str := ""
    m_subs := []
    table := [{ version := 0, state := State.Pending, snapshot_version := 0,
                error := "", subs := [] },
              { version := 1, state := State.Pending, snapshot_version := 0,
                error := "", subs := [] },
              { version := 2, state := State.Pending, snapshot_version := 0,
                error := "", subs := [] }]
    writing := true }

def c4_example_after : MutableSubscriptionSet :=
  { c4_example with
      m_state := State.Complete
      table := [{ version := 2, state := State.Pending, snapshot_version := 0,
                  error := "", subs := [] }] }

def c4_step_mut : MutableSubscriptionSet :=
  { m_version := 0
    m_old_state := State.Pending
    m_state := State.Pending
    m_error_str := ""
    m_subs := []
    table := initial_table 0
    writing := true }

def c4_step_result : CommitResult :=
  { table := [{ version := 0, state := State.Complete, snapshot_version := 0,
                error := "", subs := [] }]
    m_state := State.Complete
    frozen := .ok { m_version := 0, m_state := State.Complete,
                    m_error_str := "", m_snapshot_version := 0, m_subs := [] }
    events := [CommitEvent.commit_write_transaction,
               CommitEvent.notifications_processed]
    resolutions := []
    pending_after := []
    min_outstanding_after := 0 }

def c6_set : SubscriptionSet :=
  { m_version := 0
    m_state := State.Pending
    m_error_str := ""
    m_snapshot_version := 0
    m_subs := [{ m_id := 9
                 m_created_at := 50
                 m_updated_at := 60
                 m_name := some "n"
                 m_object_class_name := "Dog"
                 m_query_string := "age > 3" }] }

def c6_result : CommitResult :=
  { table := [{ version := 0, state := State.Pending, snapshot_version := 0,
                error := "", subs := [] },
              { version := 1, state := State.Pending, snapshot_version := 7,
                error := "",
                subs := [{ id := 9, created_at := 50, updated_at := 60,
                           name := some "n", object_class := "Dog",
                           query := "age > 3" }] }]
    m_state := State.Pending
    frozen := .ok { m_version := 1, m_state := State.Pending,
                    m_error_str := "", m_snapshot_version := 7,
                    m_subs := c6_set.m_subs }
    events := [CommitEvent.commit_write_transaction,
               CommitEvent.notifications_processed,
               CommitEvent.on_new_pending 1]
    resolutions := []
    pending_after := []
    min_outstanding_after := 0 }

def c8_empty_set : SubscriptionSet :=
  { m_version := 0
    m_state := State.Pending
    m_error_str := ""
    m_snapshot_version := 0
    m_subs := [] }

def c8_example : MutableSubscriptionSet :=
  make_mutable_copy (initial_table 0) c8_empty_set

def c8_result : CommitResult :=
  { table := [{ version := 0, state := State.Pending, snapshot_version := 0,
                error := "", subs := [] },
              { version := 1, state := State.Error, snapshot_version := 5,
                error := "", subs := [] }]
    m_state := State.Error
    frozen := .ok { m_version := 1, m_state := State.Error, m_error_str := "",
                    m_snapshot_version := 5, m_subs := [] }
    events := [CommitEvent.commit_write_transaction,
               CommitEvent.notifications_processed]
    resolutions := []
    pending_after := []
    min_outstanding_after := 0 }

def c8_witness_result : CommitResult :=
  { table := [{ version := 0, state := State.Pending, snapshot_version := 0,
                error := "", subs := [] },
              { version := 1, state := State.Error, snapshot_version := 5,
                error := "boom", subs := [] }]
    m_state := State.Error
    frozen := .ok { m_version := 1, m_state := State.Error,
                    m_error_str := "boom", m_snapshot_version := 5,
                    m_subs := [] }
    events := [CommitEvent.commit_write_transaction,
               CommitEvent.notifications_processed]
    resolutions := []
    pending_after := []
    min_outstanding_after := 0 }

def c10_start : MutableSubscriptionSet :=
  { m_version := 1
    m_old_state := State.Uncommitted
    m_state := State.Uncommitted
    m_error_str := ""
    m_subs := []
    table := [{ version := 1, state := State.Uncommitted,
                snapshot_version := 0, error := "", subs := [] }]
    writing := true }

def c10_named_sub : Subscription :=
  { m_id := 7
    m_created_at := 100
    m_updated_at := 100
    m_name := some ""
    m_object_class_name := "Dog"
    m_query_string := "age > 3" }

def c10_after_named : MutableSubscriptionSet :=
  { c10_start with m_subs := [c10_named_sub] }

def c10_after_anon : MutableSubscriptionSet :=
  { c10_start with m_subs := [{ c10_named_sub with m_updated_at := 200 }] }

theorem le_foldl_max (l : List Int) (a : Int) : a ≤ l.foldl max a := by
  induction l generalizing a with
  | nil => exact le_refl a
  | cons x xs ih =>
    calc a ≤ max a x := le_max_left a x
    _ ≤ xs.foldl max (max a x) := ih (max a x)

theorem mem_le_foldl_max (l : List Int) (a : Int) : ∀ x ∈ l, x ≤ l.foldl max a := by
  induction l generalizing a with
  | nil => intro x hx; cases hx
  | cons y ys ih =>
    intro x hx
    rcases List.mem_cons.mp hx with h | h
    · subst h
      calc x ≤ max a x := le_max_right a x
      _ ≤ ys.foldl max (max a x) := le_foldl_max ys (max a x)
    · exact ih (max a y) x h

theorem le_maximum_int (l : List Int) : ∀ x ∈ l, x ≤ maximum_int l := by
  cases l with
  | nil => intro x hx; cases hx
  | cons y ys =>
    intro x hx
    rcases List.mem_cons.mp hx with h | h
    · subst h; exact le_foldl_max ys x
    · exact mem_le_foldl_max ys y x h

theorem row_version_le_maximum (table : List Row) (r : Row) (hr : r ∈ table) :
    r.version ≤ maximum_int (table.map (·.version)) :=
  le_maximum_int _ r.version (List.mem_map_of_mem _ hr)

theorem find_row_eq_none (table : List Row) (v : Int)
    (h : ∀ r ∈ table, r.version ≠ v) : find_row table v = none := by
  unfold find_row
  exact List.find?_eq_none.mpr fun r hr => by
    simpa using h r hr

theorem find_row_append (t₁ t₂ : List Row) (v : Int) :
    find_row (t₁ ++ t₂) v = (find_row t₁ v).or (find_row t₂ v) := by
  unfold find_row
  exact List.find?_append

theorem find_row_version (table : List Row) (v : Int) (r : Row)
    (h : find_row table v = some r) : r.version = v := by
  have := List.find?_some h
  simpa using this

theorem find_row_mem (table : List Row) (v : Int) (r : Row)
    (h : find_row table v = some r) : r ∈ table :=
  List.mem_of_find?_eq_some h

theorem find_row_map_update (t : List Row) (v : Int) (f : Row → Row)
    (hf : ∀ r, (f r).version = r.version) :
    find_row (t.map fun r => if r.version = v then f r else r) v =
      (find_row t v).map f := by
  induction t with
  | nil => rfl
  | cons r rs ih =>
    by_cases h : r.version = v
    · simp only [find_row, List.map_cons, List.find?_cons, if_pos h]
      rw [show decide ((f r).version = v) = true by simp [hf r, h],
          show decide (r.version = v) = true by simp [h]]
      rfl
    · simp only [find_row, List.map_cons, List.find?_cons, if_neg h]
      rw [show decide (r.version = v) = false by simp [h]]
      exact ih

theorem find_row_filter_some (t : List Row) (p : Row → Bool) (v : Int) (r : Row)
    (hfind : find_row t v = some r) (hp : p r = true) :
    find_row (t.filter p) v = some r := by
  unfold find_row at hfind ⊢
  rw [List.find?_filter]
  induction t with
  | nil => cases hfind
  | cons x xs ih =>
    rw [List.find?_cons] at hfind
    by_cases hx : x.version = v
    · rw [show decide (x.version = v) = true by simp [hx]] at hfind
      cases hfind
      rw [List.find?_cons, show (decide (p r = true ∧ decide (r.version = v) = true)) = true by
        simp [hp, hx]]
    · rw [show decide (x.version = v) = false by simp [hx]] at hfind
      rw [List.find?_cons, show (decide (p x = true ∧ decide (x.version = v) = true)) = false by
        simp [hx]]
      exact ih hfind

theorem update_state_fields (self : MutableSubscriptionSet) (ns : State)
    (es : Option String) (self' : MutableSubscriptionSet)
    (h : self.update_state ns es = .ok self') :
    self'.m_version = self.m_version ∧ self'.m_old_state = self.m_old_state ∧
    self'.writing = self.writing ∧ self'.m_subs = self.m_subs := by
  cases ns with
  | Uncommitted =>
    simp only [MutableSubscriptionSet.update_state] at h
    split at h <;> cases h
  | Error =>
    simp only [MutableSubscriptionSet.update_state] at h
    split at h
    · cases h
    split at h
    · cases h
    cases es with
    | none => cases h
    | some msg => cases h; exact ⟨rfl, rfl, rfl, rfl⟩
  | Bootstrapping =>
    simp only [MutableSubscriptionSet.update_state] at h
    split at h
    · cases h
    split at h
    · cases h
    cases h; exact ⟨rfl, rfl, rfl, rfl⟩
  | Complete =>
    simp only [MutableSubscriptionSet.update_state] at h
    split at h
    · cases h
    split at h
    · cases h
    cases h; exact ⟨rfl, rfl, rfl, rfl⟩
  | Superseded =>
    simp only [MutableSubscriptionSet.update_state] at h
    split at h <;> cases h
  | Pending =>
    simp only [MutableSubscriptionSet.update_state] at h
    split at h <;> cases h

theorem update_state_table (self : MutableSubscriptionSet) (ns : State)
    (es : Option String) (self' : MutableSubscriptionSet)
    (h : self.update_state ns es = .ok self') :
    (self'.table = self.table ∧ self'.m_state ≠ .Complete) ∨
      (ns = .Complete ∧ self'.table = supercede_prior_to self.table self.m_version ∧
        self'.m_state = .Complete) := by
  cases ns with
  | Uncommitted =>
    simp only [MutableSubscriptionSet.update_state] at h
    split at h <;> cases h
  | Error =>
    simp only [MutableSubscriptionSet.update_state] at h
    split at h
    · cases h
    split at h
    · cases h
    cases es with
    | none => cases h
    | some msg => cases h; exact .inl ⟨rfl, by simp⟩
  | Bootstrapping =>
    simp only [MutableSubscriptionSet.update_state] at h
    split at h
    · cases h
    split at h
    · cases h
    cases h; exact .inl ⟨rfl, by simp⟩
  | Complete =>
    simp only [MutableSubscriptionSet.update_state] at h
    split at h
    · cases h
    split at h
    · cases h
    cases h; exact .inr ⟨rfl, rfl, rfl⟩
  | Superseded =>
    simp only [MutableSubscriptionSet.update_state] at h
    split at h <;> cases h
  | Pending =>
    simp only [MutableSubscriptionSet.update_state] at h
    split at h <;> cases h

theorem update_state_error_cases (self : MutableSubscriptionSet) (ns : State)
    (es : Option String) (self' : MutableSubscriptionSet)
    (h : self.update_state ns es = .ok self') :
    (∃ msg, ns = .Error ∧ es = some msg ∧
        self'.m_state = .Error ∧ self'.m_error_str = msg) ∨
      (ns ≠ .Error ∧ self'.m_state = ns ∧ self'.m_state ≠ .Error ∧
        self'.m_error_str = self.m_error_str) := by
  cases ns with
  | Uncommitted =>
    simp only [MutableSubscriptionSet.update_state] at h
    split at h <;> cases h
  | Error =>
    simp only [MutableSubscriptionSet.update_state] at h
    split at h
    · cases h
    split at h
    · cases h
    cases es with
    | none => cases h
    | some msg => cases h; exact .inl ⟨msg, rfl, rfl, rfl, rfl⟩
  | Bootstrapping =>
    simp only [MutableSubscriptionSet.update_state] at h
    split at h
    · cases h
    split at h
    · cases h
    cases h
    exact .inr ⟨by simp, rfl, by simp, rfl⟩
  | Complete =>
    simp only [MutableSubscriptionSet.update_state] at h
    split at h
    · cases h
    split at h
    · cases h
    cases h
    exact .inr ⟨by simp, rfl, by simp, rfl⟩
  | Superseded =>
    simp only [MutableSubscriptionSet.update_state] at h
    split at h <;> cases h
  | Pending =>
    simp only [MutableSubscriptionSet.update_state] at h
    split at h <;> cases h

theorem run_updates_nil (self : MutableSubscriptionSet) :
    run_updates self [] = self := rfl

theorem run_updates_cons (self : MutableSubscriptionSet)
    (op : State × Option String) (ops : List (State × Option String)) :
    run_updates self (op :: ops) =
      run_updates
        (match self.update_state op.1 op.2 with
          | .ok s' => s'
          | .error _ => self) ops := rfl

theorem run_updates_fields (ops : List (State × Option String))
    (self : MutableSubscriptionSet) :
    (run_updates self ops).m_version = self.m_version ∧
    (run_updates self ops).m_old_state = self.m_old_state ∧
    (run_updates self ops).writing = self.writing ∧
    (run_updates self ops).m_subs = self.m_subs := by
  induction ops generalizing self with
  | nil => exact ⟨rfl, rfl, rfl, rfl⟩
  | cons op ops ih =>
    rw [run_updates_cons]
    cases hstep : self.update_state op.1 op.2 with
    | ok s' =>
      obtain ⟨h1, h2, h3, h4⟩ := update_state_fields self op.1 op.2 s' hstep
      obtain ⟨g1, g2, g3, g4⟩ := ih s'
      exact ⟨g1.trans h1, g2.trans h2, g3.trans h3, g4.trans h4⟩
    | error e => exact ih self

/-- Over a whole `update_state` sequence the table of the write transaction
only ever shrinks by `supercede_prior_to` filters, all of which keep every
row whose version is at least the set's own version. -/
theorem run_updates_table_filter (ops : List (State × Option String))
    (self : MutableSubscriptionSet) :
    ∃ p : Row → Bool, (run_updates self ops).table = self.table.filter p ∧
      ∀ r : Row, self.m_version ≤ r.version → p r = true := by
  induction ops generalizing self with
  | nil =>
    exact ⟨fun _ => true, by simp [run_updates_nil], fun _ _ => rfl⟩
  | cons op ops ih =>
    cases hstep : self.update_state op.1 op.2 with
    | error e =>
      rw [show run_updates self (op :: ops) = run_updates self ops by
        rw [run_updates_cons, hstep]]
      exact ih self
    | ok s' =>
      rw [show run_updates self (op :: ops) = run_updates s' ops by
        rw [run_updates_cons, hstep]]
      obtain ⟨hv, -, -, -⟩ := update_state_fields self op.1 op.2 s' hstep
      obtain ⟨p, hp, hpk⟩ := ih s'
      rcases update_state_table self op.1 op.2 s' hstep with ⟨ht, -⟩ | ⟨-, ht, -⟩
      · exact ⟨p, by rw [hp, ht], fun r hr => hpk r (hv ▸ hr)⟩
      · refine ⟨fun r => p r && (!(decide (r.version < self.m_version))), ?_, ?_⟩
        · rw [hp, ht]
          unfold supercede_prior_to
          rw [List.filter_filter]
        · intro r hr
          have h1 : (!(decide (r.version < self.m_version))) = true := by
            simp [not_lt.mpr hr]
          have h2 : p r = true := hpk r (hv ▸ hr)
          simp [h1, h2]

/-- The staged error string after a sequence of `update_state` calls is
either untouched or the message of some `Error` transition in the
sequence. -/
theorem run_updates_error_src (ops : List (State × Option String))
    (self : MutableSubscriptionSet) :
    (run_updates self ops).m_error_str = self.m_error_str ∨
      ∃ msg, (State.Error, some msg) ∈ ops ∧
        (run_updates self ops).m_error_str = msg := by
  induction ops generalizing self with
  | nil => exact .inl rfl
  | cons op ops ih =>
    cases hstep : self.update_state op.1 op.2 with
    | error e =>
      rw [show run_updates self (op :: ops) = run_updates self ops by
        rw [run_updates_cons, hstep]]
      rcases ih self with h | ⟨msg, hm, he⟩
      · exact .inl h
      · exact .inr ⟨msg, List.mem_cons_of_mem _ hm, he⟩
    | ok s' =>
      rw [show run_updates self (op :: ops) = run_updates s' ops by
        rw [run_updates_cons, hstep]]
      rcases update_state_error_cases self op.1 op.2 s' hstep with
        ⟨msg, hns, hes, -, herr⟩ | ⟨-, -, -, herr⟩
      · rcases ih s' with h | ⟨msg', hm', he'⟩
        · refine .inr ⟨msg, ?_, h.trans herr⟩
          have : op = (State.Error, some msg) := by
            cases op; simp_all
          rw [this]; exact List.mem_cons_self _ _
        · exact .inr ⟨msg', List.mem_cons_of_mem _ hm', he'⟩
      · rcases ih s' with h | ⟨msg', hm', he'⟩
        · exact .inl (h.trans herr)
        · exact .inr ⟨msg', List.mem_cons_of_mem _ hm', he'⟩

/-- If the staged state after a sequence of `update_state` calls is
`Error`, then either the handle started in `Error` with its error string
untouched, or some `Error` transition in the sequence supplied the final
error string. -/
theorem run_updates_error_state (ops : List (State × Option String))
    (self : MutableSubscriptionSet)
    (h : (run_updates self ops).m_state = .Error) :
    (self.m_state = .Error ∧
        (run_updates self ops).m_error_str = self.m_error_str) ∨
      ∃ msg, (State.Error, some msg) ∈ ops ∧
        (run_updates self ops).m_error_str = msg := by
  induction ops generalizing self with
  | nil => exact .inl ⟨h, rfl⟩
  | cons op ops ih =>
    cases hstep : self.update_state op.1 op.2 with
    | error e =>
      rw [show run_updates self (op :: ops) = run_updates self ops by
        rw [run_updates_cons, hstep]] at h ⊢
      rcases ih self h with ⟨h1, h2⟩ | ⟨msg, hm, he⟩
      · exact .inl ⟨h1, h2⟩
      · exact .inr ⟨msg, List.mem_cons_of_mem _ hm, he⟩
    | ok s' =>
      rw [show run_updates self (op :: ops) = run_updates s' ops by
        rw [run_updates_cons, hstep]] at h ⊢
      rcases ih s' h with ⟨h1, h2⟩ | ⟨msg, hm, he⟩
      · rcases update_state_error_cases self op.1 op.2 s' hstep with
          ⟨msg, hns, hes, hst, herr⟩ | ⟨-, -, hne, -⟩
        · refine .inr ⟨msg, ?_, h2.trans herr⟩
          have : op = (State.Error, some msg) := by
            cases op; simp_all
          rw [this]; exact List.mem_cons_self _ _
        · exact absurd h1 hne
      · exact .inr ⟨msg, List.mem_cons_of_mem _ hm, he⟩

theorem commit_update_row_version (self : MutableSubscriptionSet)
    (tv : Int) (r : Row) : (commit_update_row self tv r).version = r.version := by
  unfold commit_update_row
  split <;> split <;> rfl

theorem commit_update_row_state (self : MutableSubscriptionSet)
    (tv : Int) (r : Row) : (commit_update_row self tv r).state = commit_state self := by
  unfold commit_update_row
  split <;> split <;> rfl

theorem commit_res_eq (self : MutableSubscriptionSet) (tv : Int)
    (pend : List NotificationRequest) (minv : Int) (res : CommitResult)
    (h : self.commit tv pend minv = .ok res) :
    self.writing = true ∧
    res.table = commit_table self tv ∧
    res.m_state = commit_state self ∧
    res.events = [CommitEvent.commit_write_transaction,
        CommitEvent.notifications_processed] ++
      (if commit_state self = State.Pending then
        [CommitEvent.on_new_pending self.m_version] else []) ∧
    res.frozen = get_by_version_impl (commit_table self tv)
      (process_notifications (commit_state self) self.m_version self.m_error_str
        pend minv).2.2 self.m_version ∧
    res.min_outstanding_after =
      (process_notifications (commit_state self) self.m_version self.m_error_str
        pend minv).2.2 := by
  unfold MutableSubscriptionSet.commit at h
  split at h
  · cases h
  · cases h
    refine ⟨?_, rfl, rfl, rfl, rfl, rfl⟩
    rename_i hw
    by_contra hb
    exact hw (by simpa using hb)

theorem commit_table_versions (self : MutableSubscriptionSet) (tv : Int) :
    (commit_table self tv).map (·.version) = self.table.map (·.version) := by
  unfold commit_table
  rw [List.map_map]
  apply List.map_congr_left
  intro r _
  by_cases h : r.version = self.m_version
  · simp only [Function.comp_apply, if_pos h, commit_update_row_version]
  · simp only [Function.comp_apply, if_neg h]

theorem session_inv_update_state (self : MutableSubscriptionSet) (ns : State)
    (es : Option String) (self' : MutableSubscriptionSet)
    (h : self.update_state ns es = .ok self') (hinv : SessionInv self) :
    SessionInv self' := by
  obtain ⟨hn, hc, hm⟩ := hinv
  obtain ⟨hv, -, -, -⟩ := update_state_fields self ns es self' h
  rcases update_state_table self ns es self' h with ⟨ht, hnc⟩ | ⟨-, ht, -⟩
  · exact ⟨by rw [ht]; exact hn, by rw [ht]; exact hc,
      fun hcomp => absurd hcomp hnc⟩
  · refine ⟨?_, ?_, ?_⟩
    · rw [ht]
      exact ((List.filter_sublist self.table).map (·.version)).nodup hn
    · intro r hr hcomp r' hr'
      rw [ht] at hr hr'
      exact hc r (List.mem_of_mem_filter hr) hcomp r' (List.mem_of_mem_filter hr')
    · intro _ r' hr'
      rw [ht] at hr'
      have := List.of_mem_filter hr'
      rw [hv]
      simp only [Bool.not_eq_true', decide_eq_false_iff_not, not_lt] at this
      exact this

theorem session_inv_run_updates (ops : List (State × Option String))
    (self : MutableSubscriptionSet) (hinv : SessionInv self) :
    SessionInv (run_updates self ops) := by
  induction ops generalizing self with
  | nil => exact hinv
  | cons op ops ih =>
    cases hstep : self.update_state op.1 op.2 with
    | error e =>
      rw [show run_updates self (op :: ops) = run_updates self ops by
        rw [run_updates_cons, hstep]]
      exact ih self hinv
    | ok s' =>
      rw [show run_updates self (op :: ops) = run_updates s' ops by
        rw [run_updates_cons, hstep]]
      exact ih s' (session_inv_update_state self op.1 op.2 s' hstep hinv)

theorem store_inv_initial (snapshot : Int) : StoreInv (initial_table snapshot) := by
  refine ⟨by simp [initial_table], ?_⟩
  intro r hr hcomp
  simp only [initial_table, List.mem_singleton] at hr
  subst hr
  cases hcomp

theorem session_inv_make_mutable_copy (table : List Row)
    (set : SubscriptionSet) (hinv : StoreInv table) :
    SessionInv (make_mutable_copy table set) := by
  obtain ⟨hn, hc⟩ := hinv
  set v := maximum_int (table.map (·.version)) + 1 with hvdef
  have hv_not_mem : ∀ x ∈ table.map (·.version), x ≠ v := by
    intro x hx
    have := le_maximum_int _ x hx
    omega
  unfold SessionInv make_mutable_copy
  dsimp only
  refine ⟨?_, ?_, ?_⟩
  · rw [List.map_append]
    refine List.nodup_append.mpr ⟨hn, List.nodup_singleton _, ?_⟩
    intro x hx hx'
    simp only [List.map_cons, List.map_nil, List.mem_singleton] at hx'
    exact hv_not_mem x hx (by rw [hx'])
  · intro r hr hcomp r' hr'
    rcases List.mem_append.mp hr with hr | hr
    · rcases List.mem_append.mp hr' with hr' | hr'
      · exact hc r hr hcomp r' hr'
      · simp only [List.mem_singleton] at hr'
        subst hr'
        have : r.version ≤ maximum_int (table.map (·.version)) :=
          row_version_le_maximum table r hr
        dsimp only
        omega
    · simp only [List.mem_singleton] at hr
      subst hr
      cases hcomp
  · intro hcomp
    cases hcomp

theorem session_inv_get_mutable (table : List Row) (version_id : Int)
    (self : MutableSubscriptionSet) (hinv : StoreInv table)
    (h : get_mutable_by_version table version_id = some self) :
    SessionInv self := by
  obtain ⟨hn, hc⟩ := hinv
  unfold get_mutable_by_version at h
  cases hf : find_row table version_id with
  | none => rw [hf] at h; cases h
  | some obj =>
    rw [hf] at h
    cases h
    refine ⟨hn, hc, ?_⟩
    intro hcomp r' hr'
    exact hc obj (find_row_mem table version_id obj hf) hcomp r' hr'

theorem commit_preserves_store_inv (self : MutableSubscriptionSet) (tv : Int)
    (pend : List NotificationRequest) (minv : Int) (res : CommitResult)
    (h : self.commit tv pend minv = .ok res) (hinv : SessionInv self) :
    StoreInv res.table := by
  obtain ⟨-, htab, -, -, -, -⟩ := commit_res_eq self tv pend minv res h
  obtain ⟨hn, hc, hm⟩ := hinv
  rw [htab]
  refine ⟨by rw [commit_table_versions]; exact hn, ?_⟩
  intro r hr hcomp r' hr'
  unfold commit_table at hr hr'
  rcases List.mem_map.mp hr with ⟨r0, hr0, hr0eq⟩
  rcases List.mem_map.mp hr' with ⟨r0', hr0', hr0eq'⟩
  have hver' : r'.version = r0'.version := by
    rw [← hr0eq']
    by_cases hcase : r0'.version = self.m_version
    · simp only [if_pos hcase, commit_update_row_version]
    · simp only [if_neg hcase]
  by_cases hcase : r0.version = self.m_version
  · rw [if_pos hcase] at hr0eq
    have hst : r.state = commit_state self := by
      rw [← hr0eq, commit_update_row_state]
    have hcs : commit_state self = State.Complete := hst ▸ hcomp
    have hms : self.m_state = State.Complete := by
      unfold commit_state at hcs
      split at hcs
      · cases hcs
      · exact hcs
    have hrv : r.version = r0.version := by
      rw [← hr0eq, commit_update_row_version]
    rw [hrv, hcase, hver']
    exact hm hms r0' hr0'
  · rw [if_neg hcase] at hr0eq
    subst hr0eq
    rw [hver']
    exact hc r0 hr0 hcomp r0' hr0'

theorem store_step_inv (t t' : List Row) (h : StoreStep t t')
    (hinv : StoreInv t) : StoreInv t' := by
  cases h with
  | commit_new set ops tr_version pend minv res hcommit =>
    exact commit_preserves_store_inv _ tr_version pend minv res hcommit
      (session_inv_run_updates ops _ (session_inv_make_mutable_copy t set hinv))
  | commit_existing version_id self ops tr_version pend minv res h0 hcommit =>
    exact commit_preserves_store_inv _ tr_version pend minv res hcommit
      (session_inv_run_updates ops self
        (session_inv_get_mutable t version_id self hinv h0))

theorem reachable_store_inv (t : List Row) (h : ReachableTable t) :
    StoreInv t := by
  obtain ⟨snapshot, hrt⟩ := h
  induction hrt with
  | refl => exact store_inv_initial snapshot
  | tail hsteps hstep ih => exact store_step_inv _ _ hstep ih

theorem lexLt_irrefl (l : List Char) : lexLt l l = false := by
  induction l with
  | nil => rfl
  | cons a as ih => simp [lexLt, lt_irrefl, ih]

theorem lexLt_trans (a b c : List Char) (h1 : lexLt a b = true)
    (h2 : lexLt b c = true) : lexLt a c = true := by
  induction a generalizing b c with
  | nil =>
    cases b with
    | nil => simp [lexLt] at h1
    | cons y ys =>
      cases c with
      | nil => simp [lexLt] at h2
      | cons z zs => rfl
  | cons x xs ih =>
    cases b with
    | nil => simp [lexLt] at h1
    | cons y ys =>
      cases c with
      | nil => simp [lexLt] at h2
      | cons z zs =>
        simp only [lexLt] at h1 h2 ⊢
        by_cases hxy : x < y
        · by_cases hyz : y < z
          · rw [if_pos (lt_trans hxy hyz)]
          · by_cases hyz2 : y = z
            · subst hyz2; rw [if_pos hxy]
            · rw [if_neg hyz, if_neg hyz2] at h2; cases h2
        · rw [if_neg hxy] at h1
          by_cases hxy2 : x = y
          · subst hxy2
            rw [if_pos rfl] at h1
            by_cases hyz : x < z
            · rw [if_pos hyz]
            · rw [if_neg hyz] at h2 ⊢
              by_cases hyz2 : x = z
              · rw [if_pos hyz2] at h2 ⊢
                exact ih ys zs h1 h2
              · rw [if_neg hyz2] at h2; cases h2
          · rw [if_neg hxy2] at h1; cases h1

theorem lexLt_connex (a b : List Char) (h1 : lexLt a b = false)
    (h2 : lexLt b a = false) : a = b := by
  induction a generalizing b with
  | nil =>
    cases b with
    | nil => rfl
    | cons y ys => simp [lexLt] at h1
  | cons x xs ih =>
    cases b with
    | nil => simp [lexLt] at h2
    | cons y ys =>
      simp only [lexLt] at h1 h2
      by_cases hxy : x < y
      · rw [if_pos hxy] at h1; cases h1
      · by_cases hyx : y < x
        · rw [if_pos hyx] at h2; cases h2
        · have hxy2 : x = y := le_antisymm (not_lt.mp hyx) (not_lt.mp hxy)
          subst hxy2
          rw [if_neg hxy, if_pos rfl] at h1 h2
          rw [ih ys h1 h2]

theorem lexLt_asymm (a b : List Char) (h : lexLt a b = true) :
    lexLt b a = false := by
  cases hba : lexLt b a with
  | false => rfl
  | true =>
    have := lexLt_trans a b a h hba
    rw [lexLt_irrefl] at this
    cases this

theorem strLt_irrefl (s : String) : strLt s s = false := lexLt_irrefl s.data

theorem strLt_trans (a b c : String) (h1 : strLt a b = true)
    (h2 : strLt b c = true) : strLt a c = true :=
  lexLt_trans a.data b.data c.data h1 h2

theorem strLt_connex (a b : String) (h1 : strLt a b = false)
    (h2 : strLt b a = false) : a = b :=
  String.ext (lexLt_connex a.data b.data h1 h2)

theorem strLt_asymm (a b : String) (h : strLt a b = true) :
    strLt b a = false :=
  lexLt_asymm a.data b.data h

theorem strLt_ne (a b : String) (h : strLt a b = true) : a ≠ b := by
  intro hab
  subst hab
  rw [strLt_irrefl] at h
  cases h

theorem strLe_trans (a b c : String) (h1 : strLe a b = true)
    (h2 : strLe b c = true) : strLe a c = true := by
  unfold strLe at h1 h2 ⊢
  simp only [Bool.not_eq_true'] at h1 h2 ⊢
  cases hca : strLt c a with
  | false => rfl
  | true =>
    exfalso
    cases hab : strLt a b with
    | true =>
      have := strLt_trans c a b hca hab
      rw [h2] at this
      cases this
    | false =>
      have hab2 : a = b := strLt_connex a b hab h1
      subst hab2
      rw [h2] at hca
      cases hca

theorem strLe_total (a b : String) : (strLe a b || strLe b a) = true := by
  unfold strLe
  cases h : strLt b a with
  | false => simp
  | true => simp [strLt_asymm b a h]

theorem strLe_antisymm (a b : String) (h1 : strLe a b = true)
    (h2 : strLe b a = true) : a = b := by
  unfold strLe at h1 h2
  simp only [Bool.not_eq_true'] at h1 h2
  exact strLt_connex a b h2 h1

theorem queries_at_not_mem (m : List (String × List String)) (key : String)
    (h : key ∉ m.map Prod.fst) : queries_at m key = [] := by
  induction m with
  | nil => rfl
  | cons kv rest ih =>
    obtain ⟨k, v⟩ := kv
    simp only [List.map_cons, List.mem_cons, not_or] at h
    have hne : ¬ (k = key) := fun hkk => h.1 hkk.symm
    simp only [queries_at]
    rw [if_neg hne]
    exact ih h.2

theorem add_query_keys_mem (m : List (String × List String)) (cls q k' : String) :
    k' ∈ (add_query m cls q).map Prod.fst ↔
      k' ∈ m.map Prod.fst ∨ k' = cls := by
  induction m with
  | nil => simp [add_query]
  | cons kv rest ih =>
    obtain ⟨k, v⟩ := kv
    simp only [add_query]
    by_cases h1 : strLt cls k
    · rw [if_pos h1]
      simp only [List.map_cons, List.mem_cons]
      tauto
    · rw [if_neg h1]
      by_cases h2 : cls = k
      · rw [if_pos h2]
        simp only [List.map_cons, List.mem_cons]
        constructor
        · intro h; tauto
        · rintro ((h | h) | h)
          · exact .inl h
          · exact .inr h
          · exact .inl (h.trans h2)
      · rw [if_neg h2]
        simp only [List.map_cons, List.mem_cons, ih]
        tauto

theorem add_query_keys_sorted (m : List (String × List String)) (cls q : String)
    (h : (m.map Prod.fst).Pairwise (fun a b => strLt a b = true)) :
    ((add_query m cls q).map Prod.fst).Pairwise (fun a b => strLt a b = true) := by
  induction m with
  | nil => simp [add_query]
  | cons kv rest ih =>
    obtain ⟨k, v⟩ := kv
    simp only [List.map_cons, List.pairwise_cons] at h
    obtain ⟨hk, hrest⟩ := h
    simp only [add_query]
    by_cases h1 : strLt cls k
    · rw [if_pos h1]
      simp only [List.map_cons, List.pairwise_cons]
      refine ⟨?_, hk, hrest⟩
      intro a ha
      rcases List.mem_cons.mp ha with ha | ha
      · rw [ha]; exact h1
      · exact strLt_trans cls k a h1 (hk a ha)
    · rw [if_neg h1]
      by_cases h2 : cls = k
      · rw [if_pos h2]
        simp only [List.map_cons, List.pairwise_cons]
        exact ⟨hk, hrest⟩
      · rw [if_neg h2]
        simp only [List.map_cons, List.pairwise_cons]
        refine ⟨?_, ih hrest⟩
        intro a ha
        rcases (add_query_keys_mem rest cls q a).mp ha with ha | ha
        · exact hk a ha
        · rw [ha]
          have hlt : strLt cls k = false := by
            cases hc : strLt cls k
            · rfl
            · exact absurd hc h1
          cases hc : strLt k cls
          · exact absurd (strLt_connex k cls hc hlt).symm h2
          · rfl

theorem add_query_values_nodup (m : List (String × List String)) (cls q : String)
    (h : ∀ kv ∈ m, kv.2.Nodup) : ∀ kv ∈ add_query m cls q, kv.2.Nodup := by
  induction m with
  | nil =>
    intro kv hkv
    simp only [add_query, List.mem_singleton] at hkv
    rw [hkv]
    exact List.nodup_singleton q
  | cons kv0 rest ih =>
    obtain ⟨k, v⟩ := kv0
    intro kv hkv
    simp only [add_query] at hkv
    by_cases h1 : strLt cls k
    · rw [if_pos h1] at hkv
      rcases List.mem_cons.mp hkv with hkv | hkv
      · rw [hkv]; exact List.nodup_singleton q
      · exact h kv hkv
    · rw [if_neg h1] at hkv
      by_cases h2 : cls = k
      · rw [if_pos h2] at hkv
        rcases List.mem_cons.mp hkv with hkv | hkv
        · rw [hkv]
          by_cases hq : q ∈ v
          · simp only [if_pos hq]
            exact h (k, v) (List.mem_cons_self _ _)
          · simp only [if_neg hq]
            refine List.nodup_append.mpr
              ⟨h (k, v) (List.mem_cons_self _ _), List.nodup_singleton q, ?_⟩
            intro x hx hx'
            rw [List.mem_singleton] at hx'
            rw [hx'] at hx
            exact hq hx
        · exact h kv (List.mem_cons_of_mem _ hkv)
      · rw [if_neg h2] at hkv
        rcases List.mem_cons.mp hkv with hkv | hkv
        · rw [hkv]; exact h (k, v) (List.mem_cons_self _ _)
        · exact ih (fun kv' hkv' => h kv' (List.mem_cons_of_mem _ hkv')) kv hkv

theorem queries_at_nodup (m : List (String × List String)) (key : String)
    (h : ∀ kv ∈ m, kv.2.Nodup) : (queries_at m key).Nodup := by
  induction m with
  | nil => exact List.nodup_nil
  | cons kv rest ih =>
    obtain ⟨k, v⟩ := kv
    simp only [queries_at]
    by_cases hk : k = key
    · rw [if_pos hk]
      exact h (k, v) (List.mem_cons_self _ _)
    · rw [if_neg hk]
      exact ih fun kv' hkv' => h kv' (List.mem_cons_of_mem _ hkv')

theorem queries_at_add (m : List (String × List String)) (cls q key : String)
    (hsorted : (m.map Prod.fst).Pairwise (fun a b => strLt a b = true)) :
    queries_at (add_query m cls q) key =
      if key = cls then
        (if q ∈ queries_at m cls then queries_at m cls
         else queries_at m cls ++ [q])
      else queries_at m key := by
  induction m with
  | nil =>
    simp only [add_query, queries_at]
    by_cases hk : key = cls
    · rw [if_pos hk.symm, if_pos hk]
      simp
    · rw [if_neg (show ¬ (cls = key) from fun hc => hk hc.symm), if_neg hk]
  | cons kv rest ih =>
    obtain ⟨k, v⟩ := kv
    simp only [List.map_cons, List.pairwise_cons] at hsorted
    obtain ⟨hklt, hrest⟩ := hsorted
    have hcls_not_rest : strLt cls k = true → cls ∉ rest.map Prod.fst := by
      intro hck hmem
      have hkc := hklt cls hmem
      have hcc := strLt_trans cls k cls hck hkc
      rw [strLt_irrefl] at hcc
      cases hcc
    simp only [add_query]
    by_cases h1 : strLt cls k
    · rw [if_pos h1]
      have hne : cls ≠ k := strLt_ne cls k h1
      have hnk : ¬ (k = cls) := fun hc => hne hc.symm
      have hq_cls : queries_at ((k, v) :: rest) cls = [] := by
        simp only [queries_at]
        rw [if_neg hnk]
        exact queries_at_not_mem rest cls (hcls_not_rest h1)
      rw [hq_cls]
      by_cases hk : key = cls
      · rw [if_pos hk]
        simp only [queries_at]
        rw [if_pos hk.symm]
        simp
      · rw [if_neg hk]
        simp only [queries_at]
        rw [if_neg (show ¬ (cls = key) from fun hc => hk hc.symm)]
    · rw [if_neg h1]
      by_cases h2 : cls = k
      · rw [if_pos h2]
        have hq_cls : queries_at ((k, v) :: rest) cls = v := by
          simp only [queries_at]
          rw [if_pos h2.symm]
        rw [hq_cls]
        by_cases hk : key = cls
        · rw [if_pos hk]
          have hkk : k = key := (hk.trans h2).symm
          simp only [queries_at]
          rw [if_pos hkk]
        · rw [if_neg hk]
          have hkk : ¬ (k = key) := fun hc => hk (hc.symm.trans h2.symm)
          simp only [queries_at]
          rw [if_neg hkk, if_neg hkk]
      · rw [if_neg h2]
        have hq_m_cls : queries_at ((k, v) :: rest) cls = queries_at rest cls := by
          simp only [queries_at]
          rw [if_neg (show ¬ (k = cls) from fun hc => h2 hc.symm)]
        rw [hq_m_cls]
        by_cases hk : key = k
        · have hknec : ¬ (key = cls) := fun hc => h2 (hc.symm.trans hk)
          rw [if_neg hknec]
          have hL : queries_at ((k, v) :: add_query rest cls q) key = v := by
            simp only [queries_at]
            rw [if_pos hk.symm]
          have hR : queries_at ((k, v) :: rest) key = v := by
            simp only [queries_at]
            rw [if_pos hk.symm]
          rw [hL, hR]
        · have hL : queries_at ((k, v) :: add_query rest cls q) key =
              queries_at (add_query rest cls q) key := by
            simp only [queries_at]
            rw [if_neg (show ¬ (k = key) from fun hc => hk hc.symm)]
          have hR : queries_at ((k, v) :: rest) key = queries_at rest key := by
            simp only [queries_at]
            rw [if_neg (show ¬ (k = key) from fun hc => hk hc.symm)]
          rw [hL, hR, ih hrest]

theorem mem_queries_at_add (m : List (String × List String))
    (cls q key q' : String)
    (hsorted : (m.map Prod.fst).Pairwise (fun a b => strLt a b = true)) :
    q' ∈ queries_at (add_query m cls q) key ↔
      q' ∈ queries_at m key ∨ (key = cls ∧ q' = q) := by
  rw [queries_at_add m cls q key hsorted]
  by_cases hk : key = cls
  · rw [if_pos hk, hk]
    by_cases hq : q ∈ queries_at m cls
    · rw [if_pos hq]
      constructor
      · intro h; exact .inl h
      · rintro (h | ⟨-, h⟩)
        · exact h
        · rw [h]; exact hq
    · rw [if_neg hq]
      simp only [List.mem_append, List.mem_singleton]
      tauto
  · rw [if_neg hk]
    tauto

theorem build_map_step (s : Subscription) (subs : List Subscription)
    (m : List (String × List String)) :
    (s :: subs).foldl
        (fun m sub => add_query m sub.m_object_class_name sub.m_query_string) m =
      subs.foldl
        (fun m sub => add_query m sub.m_object_class_name sub.m_query_string)
        (add_query m s.m_object_class_name s.m_query_string) := rfl

theorem foldl_add_sorted (subs : List Subscription)
    (m : List (String × List String))
    (h : (m.map Prod.fst).Pairwise (fun a b => strLt a b = true)) :
    ((subs.foldl
        (fun m sub => add_query m sub.m_object_class_name sub.m_query_string)
        m).map Prod.fst).Pairwise (fun a b => strLt a b = true) := by
  induction subs generalizing m with
  | nil => exact h
  | cons s subs ih =>
    rw [build_map_step]
    exact ih _ (add_query_keys_sorted m _ _ h)

theorem foldl_add_values_nodup (subs : List Subscription)
    (m : List (String × List String)) (h : ∀ kv ∈ m, kv.2.Nodup) :
    ∀ kv ∈ subs.foldl
        (fun m sub => add_query m sub.m_object_class_name sub.m_query_string) m,
      kv.2.Nodup := by
  induction subs generalizing m with
  | nil => exact h
  | cons s subs ih =>
    rw [build_map_step]
    exact ih _ (add_query_values_nodup m _ _ h)

theorem mem_queries_at_foldl (subs : List Subscription)
    (m : List (String × List String)) (key q' : String)
    (hsorted : (m.map Prod.fst).Pairwise (fun a b => strLt a b = true)) :
    q' ∈ queries_at
        (subs.foldl
          (fun m sub => add_query m sub.m_object_class_name sub.m_query_string)
          m) key ↔
      q' ∈ queries_at m key ∨ (key, q') ∈ subs.map sub_pair := by
  induction subs generalizing m with
  | nil => simp
  | cons s subs ih =>
    rw [build_map_step]
    rw [ih _ (add_query_keys_sorted m _ _ hsorted)]
    rw [mem_queries_at_add m _ _ key q' hsorted]
    simp only [List.map_cons, List.mem_cons, sub_pair, Prod.mk.injEq]
    tauto

theorem keys_mem_foldl (subs : List Subscription)
    (m : List (String × List String)) (key : String) :
    key ∈ (subs.foldl
        (fun m sub => add_query m sub.m_object_class_name sub.m_query_string)
        m).map Prod.fst ↔
      key ∈ m.map Prod.fst ∨ key ∈ (subs.map sub_pair).map Prod.fst := by
  induction subs generalizing m with
  | nil => simp
  | cons s subs ih =>
    rw [build_map_step, ih]
    rw [add_query_keys_mem m _ _ key]
    simp only [List.map_cons, List.mem_cons, sub_pair]
    tauto

theorem build_map_keys_sorted (l : List Subscription) :
    ((build_map l).map Prod.fst).Pairwise (fun a b => strLt a b = true) :=
  foldl_add_sorted l [] (by simp)

theorem build_map_values_nodup (l : List Subscription) :
    ∀ kv ∈ build_map l, kv.2.Nodup :=
  foldl_add_values_nodup l [] (by intro kv h; cases h)

theorem mem_queries_at_build (l : List Subscription) (key q' : String) :
    q' ∈ queries_at (build_map l) key ↔ (key, q') ∈ l.map sub_pair := by
  unfold build_map
  rw [mem_queries_at_foldl l [] key q' (by simp)]
  simp [queries_at]

theorem keys_mem_build (l : List Subscription) (key : String) :
    key ∈ (build_map l).map Prod.fst ↔
      key ∈ (l.map sub_pair).map Prod.fst := by
  unfold build_map
  rw [keys_mem_foldl l [] key]
  simp

theorem pairwise_strLt_nodup (l : List String)
    (h : l.Pairwise (fun a b => strLt a b = true)) : l.Nodup :=
  h.imp fun hab => strLt_ne _ _ hab

theorem sorted_strings_eq (l₁ l₂ : List String)
    (h₁ : l₁.Pairwise (fun a b => strLt a b = true))
    (h₂ : l₂.Pairwise (fun a b => strLt a b = true))
    (hmem : ∀ k, k ∈ l₁ ↔ k ∈ l₂) : l₁ = l₂ := by
  have nd₁ := pairwise_strLt_nodup l₁ h₁
  have nd₂ := pairwise_strLt_nodup l₂ h₂
  have hperm : l₁.Perm l₂ := by
    refine List.perm_of_nodup_nodup_toFinset_eq nd₁ nd₂ ?_
    ext a
    simp [List.mem_toFinset, hmem a]
  haveI : IsAntisymm String (fun a b => strLt a b = true) := by
    refine ⟨fun a b h1 h2 => ?_⟩
    have := strLt_asymm a b h1
    rw [this] at h2
    cases h2
  exact List.eq_of_perm_of_sorted hperm h₁ h₂

theorem strLeRel_total : ∀ a b : String, strLeRel a b ∨ strLeRel b a := by
  intro a b
  cases h1 : strLe a b with
  | true => exact .inl h1
  | false =>
    right
    have h := strLe_total a b
    rw [h1] at h
    simpa using h

theorem insertionSort_eq_of_mem (v₁ v₂ : List String)
    (h₁ : v₁.Nodup) (h₂ : v₂.Nodup) (hmem : ∀ q, q ∈ v₁ ↔ q ∈ v₂) :
    List.insertionSort strLeRel v₁ = List.insertionSort strLeRel v₂ := by
  haveI : IsTotal String strLeRel := ⟨strLeRel_total⟩
  haveI : IsTrans String strLeRel := ⟨fun a b c => strLe_trans a b c⟩
  haveI : IsAntisymm String strLeRel := ⟨fun a b => strLe_antisymm a b⟩
  have hperm12 : v₁.Perm v₂ := by
    refine List.perm_of_nodup_nodup_toFinset_eq h₁ h₂ ?_
    ext a
    simp [List.mem_toFinset, hmem a]
  have hperm : (List.insertionSort strLeRel v₁).Perm
      (List.insertionSort strLeRel v₂) :=
    ((List.perm_insertionSort strLeRel v₁).trans hperm12).trans
      (List.perm_insertionSort strLeRel v₂).symm
  exact List.eq_of_perm_of_sorted hperm
    (List.sorted_insertionSort strLeRel v₁)
    (List.sorted_insertionSort strLeRel v₂)

theorem assoc_map_ext (f : List String → String) :
    ∀ (m₁ m₂ : List (String × List String)),
      m₁.map Prod.fst = m₂.map Prod.fst →
      (m₁.map Prod.fst).Nodup →
      (∀ k ∈ m₁.map Prod.fst, f (queries_at m₁ k) = f (queries_at m₂ k)) →
      m₁.map (fun kv => (kv.1, f kv.2)) = m₂.map (fun kv => (kv.1, f kv.2)) := by
  intro m₁
  induction m₁ with
  | nil =>
    intro m₂ hkeys _ _
    cases m₂ with
    | nil => rfl
    | cons kv r => simp at hkeys
  | cons kv r₁ ih =>
    intro m₂ hkeys hnd hvals
    cases m₂ with
    | nil => simp at hkeys
    | cons kv₂ r₂ =>
      obtain ⟨k, v₁⟩ := kv
      obtain ⟨k₂, v₂⟩ := kv₂
      simp only [List.map_cons, List.cons.injEq] at hkeys
      obtain ⟨hk12, hkrest⟩ := hkeys
      simp only [List.map_cons, List.nodup_cons] at hnd
      obtain ⟨hknot, hndrest⟩ := hnd
      have hv : f v₁ = f v₂ := by
        have hthis := hvals k (by simp)
        simp only [queries_at, if_pos rfl] at hthis
        rw [if_pos hk12.symm] at hthis
        exact hthis
      have htail : r₁.map (fun kv => (kv.1, f kv.2)) =
          r₂.map (fun kv => (kv.1, f kv.2)) := by
        refine ih r₂ hkrest hndrest ?_
        intro k' hk'
        have hkne : ¬ (k = k') := fun hc => hknot (hc ▸ hk')
        have hthis := hvals k' (List.mem_cons_of_mem _ hk')
        simp only [queries_at] at hthis
        rw [if_neg hkne, if_neg (show ¬ (k₂ = k') from fun hc => hkne (hk12.trans hc))]
          at hthis
        exact hthis
      simp only [List.map_cons, htail, hk12, hv]

/-- `to_ext_json` depends only on the multiset of
`(object_class, query_string)` pairs. -/
theorem ext_json_of_perm (l₁ l₂ : List Subscription)
    (h : (l₁.map sub_pair).Perm (l₂.map sub_pair)) :
    ext_json_of l₁ = ext_json_of l₂ := by
  have hlen : l₁.length = l₂.length := by
    have := h.length_eq
    simpa using this
  unfold ext_json_of
  by_cases hemp : l₁.isEmpty
  · have hemp2 : l₂.isEmpty := by
      rw [List.isEmpty_iff] at hemp ⊢
      rw [hemp] at hlen
      exact List.length_eq_zero.mp hlen.symm
    rw [if_pos hemp, if_pos hemp2]
  · have hemp2 : ¬ l₂.isEmpty := by
      intro hc
      rw [List.isEmpty_iff] at hc
      rw [hc] at hlen
      exact hemp (List.isEmpty_iff.mpr (List.length_eq_zero.mp hlen))
    rw [if_neg hemp, if_neg hemp2]
    have hkeys : (build_map l₁).map Prod.fst = (build_map l₂).map Prod.fst := by
      refine sorted_strings_eq _ _ (build_map_keys_sorted l₁)
        (build_map_keys_sorted l₂) ?_
      intro k
      rw [keys_mem_build, keys_mem_build]
      exact (h.map Prod.fst).mem_iff
    have hbemp : (build_map l₁).isEmpty = (build_map l₂).isEmpty := by
      rcases hb1 : build_map l₁ with _ | ⟨kv, r⟩ <;>
        rcases hb2 : build_map l₂ with _ | ⟨kv', r'⟩
      · rfl
      · rw [hb1, hb2] at hkeys; simp at hkeys
      · rw [hb1, hb2] at hkeys; simp at hkeys
      · rfl
    rw [hbemp]
    by_cases hbe : (build_map l₂).isEmpty
    · rw [if_pos hbe, if_pos hbe]
    · rw [if_neg hbe, if_neg hbe]
      have hentries : (build_map l₁).map
            (fun kv => (kv.1, render_queries (List.insertionSort strLeRel kv.2))) =
          (build_map l₂).map
            (fun kv => (kv.1, render_queries (List.insertionSort strLeRel kv.2))) := by
        refine assoc_map_ext (fun v => render_queries (List.insertionSort strLeRel v))
          _ _ hkeys
          (pairwise_strLt_nodup _ (build_map_keys_sorted l₁)) ?_
        intro k _
        have hsort : List.insertionSort strLeRel (queries_at (build_map l₁) k) =
            List.insertionSort strLeRel (queries_at (build_map l₂) k) := by
          refine insertionSort_eq_of_mem _ _
            (queries_at_nodup _ k (build_map_values_nodup l₁))
            (queries_at_nodup _ k (build_map_values_nodup l₂)) ?_
          intro q
          rw [mem_queries_at_build, mem_queries_at_build]
          exact h.mem_iff
        show render_queries (List.insertionSort strLeRel (queries_at (build_map l₁) k)) =
          render_queries (List.insertionSort strLeRel (queries_at (build_map l₂) k))
        rw [hsort]
      rw [hentries]

theorem load_write_sub (s : Subscription) : load_sub (write_sub s) = s := rfl

theorem commit_update_row_error (self : MutableSubscriptionSet) (tv : Int)
    (r : Row) :
    (commit_update_row self tv r).error =
      (if self.m_error_str ≠ "" then self.m_error_str else r.error) := by
  unfold commit_update_row
  split <;> split <;> rfl

theorem commit_update_row_snapshot (self : MutableSubscriptionSet) (tv : Int)
    (r : Row) (h : self.m_old_state = State.Uncommitted) :
    (commit_update_row self tv r).snapshot_version = tv := by
  unfold commit_update_row
  rw [if_pos h]
  split <;> rfl

theorem commit_update_row_subs (self : MutableSubscriptionSet) (tv : Int)
    (r : Row) (h : self.m_old_state = State.Uncommitted) :
    (commit_update_row self tv r).subs = self.m_subs.map write_sub := by
  unfold commit_update_row
  rw [if_pos h]
  split <;> rfl

theorem find_row_commit_table (self : MutableSubscriptionSet) (tv : Int)
    (r0 : Row) (h : find_row self.table self.m_version = some r0) :
    find_row (commit_table self tv) self.m_version =
      some (commit_update_row self tv r0) := by
  unfold commit_table
  rw [find_row_map_update self.table self.m_version _
    (commit_update_row_version self tv), h]
  rfl

theorem make_mutable_copy_fresh_row (table : List Row) (set : SubscriptionSet) :
    find_row (make_mutable_copy table set).table
        (make_mutable_copy table set).m_version =
      some { version := maximum_int (table.map (·.version)) + 1,
             state := State.Uncommitted, snapshot_version := 0, error := "",
             subs := [] } := by
  unfold make_mutable_copy
  dsimp only
  rw [find_row_append]
  rw [find_row_eq_none table _ (fun r hr => by
    have := row_version_le_maximum table r hr
    omega)]
  simp [find_row]

theorem find_row_run_updates (ops : List (State × Option String))
    (self : MutableSubscriptionSet) (r0 : Row)
    (h : find_row self.table self.m_version = some r0) :
    find_row (run_updates self ops).table
      (run_updates self ops).m_version = some r0 := by
  obtain ⟨p, hp, hpk⟩ := run_updates_table_filter ops self
  obtain ⟨hv, -, -, -⟩ := run_updates_fields ops self
  rw [hv, hp]
  exact find_row_filter_some self.table p self.m_version r0 h
    (hpk r0 (le_of_eq (find_row_version _ _ _ h).symm))

theorem commit_state_error (self : MutableSubscriptionSet)
    (h : commit_state self = State.Error) : self.m_state = State.Error := by
  unfold commit_state at h
  split at h
  · cases h
  · exact h

theorem commit_state_complete (self : MutableSubscriptionSet)
    (h : commit_state self = State.Complete) :
    self.m_state = State.Complete := by
  unfold commit_state at h
  split at h
  · cases h
  · exact h

theorem process_notifications_spec (ns : State) (my : Int) (err : String)
    (pend : List NotificationRequest) (minv : Int) :
    (process_notifications ns my err pend minv).2.2 =
      (if ns = State.Complete then my else minv) ∧
    (process_notifications ns my err pend minv).2.1 =
      (pend.filter fun it =>
        decide ((it.version = my ∧
            (ns = State.Error ∨ stateGE ns it.notify_when = true)) ∨
          (ns = State.Complete ∧ it.version < my))).map
        (fun req =>
          if ns = State.Error ∧ req.version = my then
            (req, Resolution.failure err)
          else if req.version < my then (req, Resolution.value State.Superseded)
          else (req, Resolution.value ns)) :=
  ⟨rfl, rfl⟩

/-- C1: the claim says that from `Complete`, `Error` or `Superseded` every
`update_state` target fails.  Counterexample: a set whose staged state is
`Complete` successfully transitions to `Bootstrapping` — `update_state`
checks the old state only for the `Error` target. -/
theorem c1_counterexample :
    c1_example.update_state State.Bootstrapping none =
      .ok { c1_example with m_state := State.Bootstrapping } := rfl

/-- C1 (amended): from a staged state of `Complete`, `Error` or
`Superseded`, `update_state` fails for the targets `Uncommitted`,
`Pending`, `Superseded` and `Error` (and for `Bootstrapping`/`Complete`
when an error message is supplied), but succeeds for `Bootstrapping` and
`Complete` without a message: only the `Error` target validates the old
state. -/
theorem c1_update_state_terminal_amended (self : MutableSubscriptionSet)
    (hw : self.writing = true)
    (hs : self.m_state = State.Complete ∨ self.m_state = State.Error ∨
      self.m_state = State.Superseded) :
    (∀ e, is_ok (self.update_state State.Uncommitted e) = false) ∧
    (∀ e, is_ok (self.update_state State.Pending e) = false) ∧
    (∀ e, is_ok (self.update_state State.Superseded e) = false) ∧
    (∀ e, is_ok (self.update_state State.Error e) = false) ∧
    (∀ msg, is_ok (self.update_state State.Bootstrapping (some msg)) = false) ∧
    (∀ msg, is_ok (self.update_state State.Complete (some msg)) = false) ∧
    is_ok (self.update_state State.Bootstrapping none) = true ∧
    is_ok (self.update_state State.Complete none) = true := by
  refine ⟨?_, ?_, ?_, ?_, ?_, ?_, ?_, ?_⟩
  · intro e
    simp [MutableSubscriptionSet.update_state, hw, is_ok]
  · intro e
    simp [MutableSubscriptionSet.update_state, hw, is_ok]
  · intro e
    simp [MutableSubscriptionSet.update_state, hw, is_ok]
  · intro e
    rcases hs with h | h | h <;>
      simp [MutableSubscriptionSet.update_state, hw, is_ok, h]
  · intro msg
    simp [MutableSubscriptionSet.update_state, hw, is_ok]
  · intro msg
    simp [MutableSubscriptionSet.update_state, hw, is_ok]
  · simp [MutableSubscriptionSet.update_state, hw, is_ok]
  · simp [MutableSubscriptionSet.update_state, hw, is_ok]

theorem c1_witness :
    is_ok (c1_example.update_state State.Bootstrapping none) = true ∧
    is_ok (c1_example.update_state State.Error (some "boom")) = false ∧
    is_ok (c1_example.update_state State.Pending none) = false := by
  have h := c1_update_state_terminal_amended c1_example rfl (Or.inl rfl)
  exact ⟨h.2.2.2.2.2.2.1, h.2.2.2.1 (some "boom"), h.2.1 none⟩

/-- C3: the claim says the `≥ notify_when` test gives `Pending` and
`Bootstrapping` equal rank, so a set observed in `Pending` with
`notify_when = Bootstrapping` yields a ready future.  Counterexample: the
code compares raw enum codes (`Pending = 2 < 3 = Bootstrapping`), so that
call enqueues a notification request instead. -/
theorem c3_counterexample :
    get_state_change_notification 0 1 State.Pending "" State.Bootstrapping =
      NotifyResult.enqueued { version := 1, notify_when := State.Bootstrapping } ∧
    stateGE State.Pending State.Bootstrapping = false ∧
    State.code State.Pending < State.code State.Bootstrapping := by decide

/-- C3 (amended): the `≥ notify_when` test compares the enum integer codes
(`Uncommitted=0 < Error=1 < Pending=2 < Bootstrapping=3 < Complete=4 <
Superseded=5`), so `Pending` ranks strictly below `Bootstrapping` and a
set observed in `Pending` with `notify_when = Bootstrapping` is enqueued,
not ready.  An observed `Error` does yield a ready (failed) future for any
`notify_when`, and `process_notifications` with `new_state = Error`
collects every request registered at that version regardless of its
`notify_when`. -/
theorem c3_notify_comparison_amended :
    (∀ (minv v : Int) (err : String) (w : State), minv ≤ v →
      get_state_change_notification minv v State.Error err w =
        NotifyResult.ready_failure err) ∧
    (∀ (minv v : Int) (err : String), minv ≤ v →
      get_state_change_notification minv v State.Pending err State.Bootstrapping =
        NotifyResult.enqueued { version := v, notify_when := State.Bootstrapping }) ∧
    (∀ (my : Int) (err : String) (pend : List NotificationRequest) (minv : Int)
        (req : NotificationRequest), req ∈ pend → req.version = my →
      (req, Resolution.failure err) ∈
        (process_notifications State.Error my err pend minv).2.1) ∧
    (stateGE State.Pending State.Bootstrapping = false ∧
      stateGE State.Bootstrapping State.Pending = true ∧
      stateGE State.Complete State.Pending = true ∧
      stateGE State.Complete State.Bootstrapping = true) := by
  refine ⟨?_, ?_, ?_, by decide⟩
  · intro minv v err w h
    unfold get_state_change_notification
    rw [if_neg (not_lt.mpr h), if_pos rfl]
  · intro minv v err h
    unfold get_state_change_notification
    rw [if_neg (not_lt.mpr h)]
    rw [if_neg (by decide : ¬ (State.Pending = State.Error))]
    rw [if_neg (by decide : ¬ (stateGE State.Pending State.Bootstrapping = true))]
  · intro my err pend minv req hmem hver
    rw [(process_notifications_spec State.Error my err pend minv).2]
    have hf : req ∈ pend.filter fun it =>
        decide ((it.version = my ∧
            (State.Error = State.Error ∨ stateGE State.Error it.notify_when = true)) ∨
          (State.Error = State.Complete ∧ it.version < my)) :=
      List.mem_filter.mpr ⟨hmem, by simp [hver]⟩
    have h2 := List.mem_map_of_mem
      (fun req => if State.Error = State.Error ∧ req.version = my then
          (req, Resolution.failure err)
        else if req.version < my then (req, Resolution.value State.Superseded)
        else (req, Resolution.value State.Error)) hf
    simpa [hver] using h2

theorem c3_witness :
    get_state_change_notification 0 2 State.Error "boom" State.Complete =
      NotifyResult.ready_failure "boom" ∧
    get_state_change_notification 0 2 State.Pending "" State.Bootstrapping =
      NotifyResult.enqueued { version := 2, notify_when := State.Bootstrapping } ∧
    ({ version := 3, notify_when := State.Complete }, Resolution.failure "x") ∈
      (process_notifications State.Error 3 "x"
        [{ version := 3, notify_when := State.Complete }] 0).2.1 := by
  have h := c3_notify_comparison_amended
  exact ⟨h.1 0 2 "boom" State.Complete (by decide),
    h.2.1 0 2 "" (by decide),
    h.2.2.1 3 "x" [{ version := 3, notify_when := State.Complete }] 0
      { version := 3, notify_when := State.Complete }
      (List.mem_singleton_self _) rfl⟩

/-- C5: `get_by_version(v)` returns the frozen set of exactly version `v`
when the row exists; when no row exists it returns a synthetic set in
state `Superseded` if `v < min_outstanding_version` and fails with the
key-not-found error (spec name `VersionNotFound`) otherwise. -/
theorem c5_get_by_version (table : List Row) (minv v : Int) :
    (∀ row, find_row table v = some row →
      get_by_version_impl table minv v = .ok (load_from_database row) ∧
      (load_from_database row).m_version = v) ∧
    (find_row table v = none → v < minv →
      get_by_version_impl table minv v = .ok (superseded_set v) ∧
      (superseded_set v).m_state = State.Superseded ∧
      (superseded_set v).m_version = v) ∧
    (find_row table v = none → ¬ v < minv →
      get_by_version_impl table minv v = .error StoreErr.KeyNotFound) := by
  refine ⟨?_, ?_, ?_⟩
  · intro row hrow
    constructor
    · unfold get_by_version_impl
      rw [hrow]
    · exact find_row_version table v row hrow
  · intro hnone hlt
    unfold get_by_version_impl
    rw [hnone]
    rw [if_pos hlt]
    exact ⟨rfl, rfl, rfl⟩
  · intro hnone hge
    unfold get_by_version_impl
    rw [hnone]
    rw [if_neg hge]

theorem c5_witness :
    get_by_version_impl
        [{ version := 2, state := State.Pending, snapshot_version := 3,
           error := "", subs := [] }] 1 2 =
      .ok { m_version := 2, m_state := State.Pending, m_error_str := "",
            m_snapshot_version := 3, m_subs := [] } ∧
    get_by_version_impl
        [{ version := 2, state := State.Pending, snapshot_version := 3,
           error := "", subs := [] }] 1 0 = .ok (superseded_set 0) ∧
    get_by_version_impl
        [{ version := 2, state := State.Pending, snapshot_version := 3,
           error := "", subs := [] }] 1 5 = .error StoreErr.KeyNotFound := by
  have h := c5_get_by_version
    [{ version := 2, state := State.Pending, snapshot_version := 3,
       error := "", subs := [] }] 1
  exact ⟨(h 2).1 _ rfl |>.1, (h 0).2.1 rfl (by decide) |>.1,
    (h 5).2.2 rfl (by decide)⟩

/-- C7: the claim says `get_active_and_latest_versions` returns
`active_version = -1` whenever no persisted set is `Complete`, including
on an empty table.  Counterexample: on an empty table the code returns
`(0, 0)`, not an active version of `-1`. -/
theorem c7_counterexample :
    get_active_and_latest_versions [] = (0, 0) ∧
    (get_active_and_latest_versions []).1 ≠ -1 := by decide

/-- C7 (amended): on a non-empty table with no `Complete` row,
`get_active_and_latest_versions` returns `active_version = -1`; on an
empty table it returns `(0, 0)`. -/
theorem c7_get_active_amended :
    (∀ table : List Row, table ≠ [] →
      (∀ r ∈ table, r.state ≠ State.Complete) →
      (get_active_and_latest_versions table).1 = -1) ∧
    get_active_and_latest_versions [] = (0, 0) := by
  refine ⟨?_, rfl⟩
  intro table hne hnc
  unfold get_active_and_latest_versions
  rw [if_neg (by simpa [List.isEmpty_iff] using hne)]
  have hfilter : (table.filter fun r => decide (r.state = State.Complete)) = [] := by
    rw [List.filter_eq_nil_iff]
    intro r hr
    simpa using hnc r hr
  simp only [hfilter]
  rfl

theorem c7_witness :
    (get_active_and_latest_versions
      [{ version := 0, state := State.Pending, snapshot_version := 0,
         error := "", subs := [] },
       { version := 1, state := State.Bootstrapping, snapshot_version := 2,
         error := "", subs := [] }]).1 = -1 :=
  c7_get_active_amended.1 _ (by simp) (by decide)

/-- C2: for a new `MutableSubscriptionSet` (one that entered commit in
`Uncommitted`), `commit` promotes a still-`Uncommitted` staged state to
`Pending`, persists the current transaction version as the row's
`snapshot_version`, and the event order is: commit the write transaction,
process notifications, and invoke `on_new_pending(version)` if and only if
the post-commit state is `Pending` — strictly after the transaction
commit. -/
theorem c2_commit_new_set (self : MutableSubscriptionSet) (tv : Int)
    (pend : List NotificationRequest) (minv : Int) (res : CommitResult)
    (r0 : Row)
    (hold : self.m_old_state = State.Uncommitted)
    (hrow : find_row self.table self.m_version = some r0)
    (hcommit : self.commit tv pend minv = .ok res) :
    res.m_state =
      (if self.m_state = State.Uncommitted then State.Pending
       else self.m_state) ∧
    find_row res.table self.m_version = some (commit_update_row self tv r0) ∧
    (commit_update_row self tv r0).snapshot_version = tv ∧
    (commit_update_row self tv r0).state = res.m_state ∧
    res.events = [CommitEvent.commit_write_transaction,
        CommitEvent.notifications_processed] ++
      (if res.m_state = State.Pending then
        [CommitEvent.on_new_pending self.m_version] else []) := by
  obtain ⟨hw, htab, hst, hev, -, -⟩ := commit_res_eq self tv pend minv res hcommit
  have hcs : commit_state self =
      (if self.m_state = State.Uncommitted then State.Pending
       else self.m_state) := by
    unfold commit_state
    by_cases h1 : self.m_state = State.Uncommitted
    · rw [if_pos ⟨hold, h1⟩, if_pos h1]
    · rw [if_neg (fun hc => h1 hc.2), if_neg h1]
  refine ⟨hst.trans hcs, ?_, ?_, ?_, ?_⟩
  · rw [htab]
    exact find_row_commit_table self tv r0 hrow
  · exact commit_update_row_snapshot self tv r0 hold
  · rw [commit_update_row_state, hst]
  · rw [hev, hst]

theorem c2_witness :
    c2_example.commit 7 [] 0 = .ok c2_result ∧
    c2_result.m_state = State.Pending ∧
    c2_result.events = [CommitEvent.commit_write_transaction,
      CommitEvent.notifications_processed, CommitEvent.on_new_pending 1] := by
  have h := c2_commit_new_set c2_example 7 [] 0 c2_result
    { version := 1, state := State.Uncommitted, snapshot_version := 0,
      error := "", subs := [] } rfl rfl rfl
  refine ⟨rfl, ?_, ?_⟩
  · simpa using h.1
  · simpa using h.2.2.2.2

/-- C4: when a set transitions to `Complete` via `update_state`, every row
with a smaller version is removed from the write transaction's table (and
the row's own and later versions are kept); `process_notifications` with
`new_state = Complete` sets `min_outstanding_version` to the committed
version; and over every reachable store table at most one persisted row
has state `Complete`. -/
theorem c4_complete_supersession :
    (∀ (self self' : MutableSubscriptionSet),
      self.update_state State.Complete none = .ok self' →
        self'.m_state = State.Complete ∧
        ∀ r : Row, r ∈ self'.table ↔
          (r ∈ self.table ∧ ¬ r.version < self.m_version)) ∧
    (∀ (my : Int) (err : String) (pend : List NotificationRequest)
        (minv : Int),
      (process_notifications State.Complete my err pend minv).2.2 = my) ∧
    (∀ table : List Row, ReachableTable table →
      ∀ r ∈ table, ∀ r' ∈ table, r.state = State.Complete →
        r'.state = State.Complete → r = r') := by
  refine ⟨?_, ?_, ?_⟩
  · intro self self' h
    rcases update_state_table self State.Complete none self' h with
      ⟨-, hnc⟩ | ⟨-, ht, hcs⟩
    · exfalso
      rcases update_state_error_cases self State.Complete none self' h with
        ⟨msg, hns, -, -, -⟩ | ⟨-, hst, -, -⟩
      · cases hns
      · exact hnc hst
    · refine ⟨hcs, ?_⟩
      intro r
      rw [ht]
      unfold supercede_prior_to
      rw [List.mem_filter]
      simp
  · intro my err pend minv
    rw [(process_notifications_spec State.Complete my err pend minv).1]
    rw [if_pos rfl]
  · intro table hreach r hr r' hr' hc hc'
    obtain ⟨hnd, hcm⟩ := reachable_store_inv table hreach
    exact List.inj_on_of_nodup_map hnd hr hr'
      (le_antisymm (hcm r hr hc r' hr') (hcm r' hr' hc' r hr))

theorem c4_witness :
    c4_example_after.m_state = State.Complete ∧
    (({ version := 0, state := State.Pending, snapshot_version := 0,
        error := "", subs := [] } : Row) ∈ c4_example_after.table ↔
      (({ version := 0, state := State.Pending, snapshot_version := 0,
          error := "", subs := [] } : Row) ∈ c4_example.table ∧
        ¬ (0 : Int) < 2)) ∧
    (process_notifications State.Complete 2 "" [] 0).2.2 = 2 ∧
    ({ version := 0, state := State.Complete, snapshot_version := 0,
       error := "", subs := [] } : Row) =
      { version := 0, state := State.Complete, snapshot_version := 0,
        error := "", subs := [] } := by
  have h1 := c4_complete_supersession.1 c4_example c4_example_after rfl
  have h2 := c4_complete_supersession.2.1 2 "" [] 0
  have h3 := c4_complete_supersession.2.2 c4_step_result.table
    ⟨0, Relation.ReflTransGen.single
      (StoreStep.commit_existing (initial_table 0) 0 c4_step_mut
        [(State.Complete, none)] 5 [] 0 c4_step_result rfl rfl)⟩
    { version := 0, state := State.Complete, snapshot_version := 0,
      error := "", subs := [] } (by simp [c4_step_result])
    { version := 0, state := State.Complete, snapshot_version := 0,
      error := "", subs := [] } (by simp [c4_step_result]) rfl rfl
  exact ⟨h1.1, h1.2 _, h2, h3⟩

/-- C6: committing `make_mutable_copy(S)` and then reading the new version
back with `get_by_version` yields a set whose subscription list equals
`S`'s in order and content (id, timestamps, name, object class name and
query string round-trip unchanged through the persisted form). -/
theorem c6_persist_then_read (table : List Row) (set : SubscriptionSet)
    (tv : Int) (pend : List NotificationRequest) (minv minv' : Int)
    (res : CommitResult)
    (hcommit : (make_mutable_copy table set).commit tv pend minv = .ok res) :
    ∃ got : SubscriptionSet,
      get_by_version_impl res.table minv'
          (maximum_int (table.map (·.version)) + 1) = .ok got ∧
      got.m_subs = set.m_subs ∧
      got.m_version = maximum_int (table.map (·.version)) + 1 := by
  obtain ⟨hw, htab, hst, -, -, -⟩ :=
    commit_res_eq (make_mutable_copy table set) tv pend minv res hcommit
  have hver : (make_mutable_copy table set).m_version =
      maximum_int (table.map (·.version)) + 1 := rfl
  have hfind := make_mutable_copy_fresh_row table set
  have hfound := find_row_commit_table (make_mutable_copy table set) tv _ hfind
  refine ⟨load_from_database
    (commit_update_row (make_mutable_copy table set) tv
      { version := maximum_int (table.map (·.version)) + 1,
        state := State.Uncommitted, snapshot_version := 0, error := "",
        subs := [] }), ?_, ?_, ?_⟩
  · unfold get_by_version_impl
    rw [htab, ← hver, hfound]
    rfl
  · show (commit_update_row (make_mutable_copy table set) tv _).subs.map load_sub =
      set.m_subs
    rw [commit_update_row_subs _ tv _ rfl]
    show (set.m_subs.map write_sub).map load_sub = set.m_subs
    rw [List.map_map]
    have hid : load_sub ∘ write_sub = id := funext fun s => load_write_sub s
    rw [hid, List.map_id]
  · exact commit_update_row_version _ tv _

theorem c6_witness :
    ∃ got : SubscriptionSet,
      get_by_version_impl c6_result.table 0 1 = .ok got ∧
      got.m_subs = c6_set.m_subs ∧
      got.m_version = 1 := by
  have h := c6_persist_then_read (initial_table 0) c6_set 7 [] 0 0 c6_result rfl
  exact h

/-- C8: the claim says that for every committed set the persisted
`error_message` is non-empty iff the state is `Error`, under every
sequence of `update_state` and `commit`.  Counterexample:
`update_state(Error, "")` is accepted (only the *presence* of the message
is validated), and the committed row then has state `Error` with an empty
error string. -/
theorem c8_counterexample :
    c8_example.update_state State.Error (some "") =
      .ok { c8_example with m_state := State.Error, m_error_str := "" } ∧
    ({ c8_example with m_state := State.Error, m_error_str := "" }
        : MutableSubscriptionSet).commit 5 [] 0 = .ok c8_result ∧
    find_row c8_result.table 1 =
      some { version := 1, state := State.Error, snapshot_version := 5,
             error := "", subs := [] } ∧
    ({ version := 1, state := State.Error, snapshot_version := 5,
       error := "", subs := [] } : Row).state = State.Error ∧
    ({ version := 1, state := State.Error, snapshot_version := 5,
       error := "", subs := [] } : Row).error = "" :=
  ⟨rfl, rfl, rfl, rfl, rfl⟩

/-- C8 (amended): for a new set committed after any sequence of
`update_state` calls in which every supplied error message is non-empty,
the committed row satisfies: state `Error` implies a non-empty persisted
`error_message`, and a non-empty persisted `error_message` implies some
`update_state(Error, msg)` occurred in the sequence (the converse
direction of the spec's "iff" fails: an `Error → Bootstrapping/Complete`
transition keeps the stale message). -/
theorem c8_error_message_amended (table : List Row) (set : SubscriptionSet)
    (ops : List (State × Option String)) (tv : Int)
    (pend : List NotificationRequest) (minv : Int) (res : CommitResult)
    (hmsgs : ∀ msg, (State.Error, some msg) ∈ ops → msg ≠ "")
    (hcommit : (run_updates (make_mutable_copy table set) ops).commit
      tv pend minv = .ok res) :
    ∃ row, find_row res.table (maximum_int (table.map (·.version)) + 1) =
        some row ∧
      (row.state = State.Error → row.error ≠ "") ∧
      (row.error ≠ "" → ∃ msg, (State.Error, some msg) ∈ ops) := by
  obtain ⟨hw, htab, hst, -, -, -⟩ :=
    commit_res_eq (run_updates (make_mutable_copy table set) ops) tv pend minv
      res hcommit
  obtain ⟨hv, hos, -, -⟩ := run_updates_fields ops (make_mutable_copy table set)
  have hfresh := make_mutable_copy_fresh_row table set
  have hfindN := find_row_run_updates ops (make_mutable_copy table set) _ hfresh
  have hfound := find_row_commit_table
    (run_updates (make_mutable_copy table set) ops) tv _ hfindN
  refine ⟨commit_update_row (run_updates (make_mutable_copy table set) ops) tv
    { version := maximum_int (table.map (·.version)) + 1,
      state := State.Uncommitted, snapshot_version := 0, error := "",
      subs := [] }, ?_, ?_, ?_⟩
  · rw [hv] at hfound
    rw [htab]
    exact hfound
  · intro hstate
    rw [commit_update_row_state] at hstate
    have hms := commit_state_error _ hstate
    rcases run_updates_error_state ops (make_mutable_copy table set) hms with
      ⟨h0, -⟩ | ⟨msg, hm, he⟩
    · cases h0
    · rw [commit_update_row_error]
      have hmsg := hmsgs msg hm
      rw [he]
      rw [if_pos hmsg]
      exact hmsg
  · intro herr
    rw [commit_update_row_error] at herr
    have hEN : (run_updates (make_mutable_copy table set) ops).m_error_str ≠ "" := by
      intro hc
      rw [hc] at herr
      simp at herr
    rcases run_updates_error_src ops (make_mutable_copy table set) with
      h0 | ⟨msg, hm, -⟩
    · exact absurd (h0.trans rfl) hEN
    · exact ⟨msg, hm⟩

theorem c8_witness :
    ∃ row, find_row c8_witness_result.table 1 = some row ∧
      (row.state = State.Error → row.error ≠ "") ∧
      (row.error ≠ "" →
        ∃ msg, (State.Error, some msg) ∈ [(State.Error, some "boom")]) := by
  have h := c8_error_message_amended (initial_table 0) c8_empty_set
    [(State.Error, some "boom")] 5 [] 0 c8_witness_result
    (by
      intro msg hm
      simp only [List.mem_singleton, Prod.mk.injEq, Option.some.injEq] at hm
      rw [hm.2]
      decide)
    rfl
  exact h

/-- C9: `to_ext_json` is a function of the multiset of
`(object_class, query_string)` pairs — two sets whose subscription lists
are equal as multisets of pairs serialize identically (duplicate queries
per class are collapsed and queries are sorted before OR-joining), and an
empty set yields the literal `\x7b\x7d`. -/
theorem c9_to_ext_json_canonical :
    (∀ s₁ s₂ : SubscriptionSet,
      (↑(s₁.m_subs.map sub_pair) : Multiset (String × String)) =
        ↑(s₂.m_subs.map sub_pair) →
      s₁.to_ext_json = s₂.to_ext_json) ∧
    (∀ s : SubscriptionSet, s.m_subs = [] → s.to_ext_json = "\x7b\x7d") ∧
    SubscriptionSet.to_ext_json
      { m_version := 1, m_state := State.Pending, m_error_str := "",
        m_snapshot_version := 0,
        m_subs := [{ m_id := 1, m_created_at := 0, m_updated_at := 0,
                     m_name := none, m_object_class_name := "Dog",
                     m_query_string := "b" },
                   { m_id := 2, m_created_at := 0, m_updated_at := 0,
                     m_name := none, m_object_class_name := "Dog",
                     m_query_string := "a" },
                   { m_id := 3, m_created_at := 0, m_updated_at := 0,
                     m_name := none, m_object_class_name := "Dog",
                     m_query_string := "b" }] } =
      "\x7b\"Dog\":\"(a) OR (b)\"\x7d" := by
  refine ⟨?_, ?_, by decide⟩
  · intro s₁ s₂ h
    exact ext_json_of_perm _ _ (Multiset.coe_eq_coe.mp h)
  · intro s h
    show ext_json_of s.m_subs = _
    rw [h]
    rfl

theorem c9_witness :
    SubscriptionSet.to_ext_json
        { m_version := 1, m_state := State.Pending, m_error_str := "",
          m_snapshot_version := 0,
          m_subs := [{ m_id := 1, m_created_at := 0, m_updated_at := 0,
                       m_name := none, m_object_class_name := "Dog",
                       m_query_string := "age > 3" },
                     { m_id := 2, m_created_at := 5, m_updated_at := 5,
                       m_name := some "n", m_object_class_name := "Cat",
                       m_query_string := "age < 2" }] } =
      SubscriptionSet.to_ext_json
        { m_version := 9, m_state := State.Complete, m_error_str := "",
          m_snapshot_version := 4,
          m_subs := [{ m_id := 7, m_created_at := 1, m_updated_at := 2,
                       m_name := some "m", m_object_class_name := "Cat",
                       m_query_string := "age < 2" },
                     { m_id := 8, m_created_at := 3, m_updated_at := 4,
                       m_name := none, m_object_class_name := "Dog",
                       m_query_string := "age > 3" }] } := by
  refine c9_to_ext_json_canonical.1 _ _ ?_
  exact Multiset.coe_eq_coe.mpr (List.Perm.swap _ _ _)

/-- C10: the named overload called with the empty name creates a
subscription whose name is present but equal to `""`; the anonymous
overload matches on `name().empty()`, which is also true for that
subscription, so a later anonymous `insert_or_assign` with the same class
and query finds and overwrites it (returning `inserted = false` and
bumping only `updated_at`) instead of inserting a second entry: the named
and anonymous namespaces are not disjoint for the empty string. -/
theorem c10_empty_name_collision :
    c10_start.insert_or_assign_named 7 100 "" "Dog" "age > 3" =
      .ok (c10_after_named, 0, true) ∧
    c10_named_sub.has_name = true ∧
    c10_named_sub.name = "" ∧
    c10_named_sub.m_name = some "" ∧
    c10_after_named.insert_or_assign_anon 8 200 "Dog" "age > 3" =
      .ok (c10_after_anon, 0, false) ∧
    c10_after_anon.m_subs.length = 1 ∧
    c10_after_anon.m_subs =
      [{ m_id := 7, m_created_at := 100, m_updated_at := 200,
         m_name := some "", m_object_class_name := "Dog",
         m_query_string := "age > 3" }] :=
  ⟨rfl, rfl, rfl, rfl, rfl, rfl, rfl⟩

end RealmSync
